import Mathlib

/-!
Verification of the timeline-extraction and classification pipeline of the
client-audit repository (src/pdf_extractor.py, src/behavior_classifier.py).

The Python code is shallowly embedded: pure string/record manipulation is
translated to executable Lean functions over `List Char` / `String`;
calls that can raise are modelled with `Option` / `Except`; the external
reasoning-oracle call is a function parameter.  Regular-expression matching
in the source uses a small fixed set of patterns; each is embedded as a
hand-specialised deterministic scanner whose backtracking behaviour is
derived from the semantics of the Python `re` engine for that exact
pattern (greedy bounded repetition, lazy `.+?` with a look-ahead, and the
scan loop of `re.search` / `re.finditer`).  Comments at each definition
record the correspondence.
-/

/-- ASCII decimal digit test, the semantics of the regex class `\d` and of
the digit fields of `datetime.strptime` for ASCII input. -/
def isDigit (c : Char) : Bool := 48 ≤ c.toNat && c.toNat ≤ 57

/-- Numeric value of an ASCII digit character. -/
def digitVal (c : Char) : Nat := c.toNat - 48

/-- Numeric value of a list of digit characters, most significant first. -/
def natVal (t : List Char) : Nat := t.foldl (fun a c => a * 10 + digitVal c) 0

/-- Inclusive character range test by code point. -/
def inRange (lo hi c : Char) : Bool := lo.toNat ≤ c.toNat && c.toNat ≤ hi.toNat

/-- Whitespace as matched by the regex class `\s` and stripped by Python
`str.strip()` for ASCII input: space, tab, newline, carriage return,
vertical tab, form feed. -/
def pySpace (c : Char) : Bool :=
  c = ' ' || c = '\t' || c = '\n' || c = '\x0d' || c = '\x0b' || c = '\x0c'

/-- Word character for the regex `\b` boundary: letters, digits, underscore
(ASCII fragment of `\w`). -/
def wordChar (c : Char) : Bool :=
  inRange 'a' 'z' c || inRange 'A' 'Z' c || isDigit c || c = '_'

/-- ASCII letter, the `[A-Z]` class under `re.IGNORECASE`. -/
def asciiLetter (c : Char) : Bool := inRange 'a' 'z' c || inRange 'A' 'Z' c

/-- Python `str.strip()`: remove leading and trailing whitespace. -/
def pyStrip (t : List Char) : List Char :=
  ((t.dropWhile pySpace).reverse.dropWhile pySpace).reverse

/-- A calendar date as produced by `datetime.strptime` (the parsed
formats carry no time of day, so year/month/day suffices; comparison of
such `datetime` values is lexicographic on these fields). -/
structure PyDate where
  year : Nat
  month : Nat
  day : Nat
deriving DecidableEq, Repr

/-- Order-embedding of a date into `Nat`; on dates with month and day
below 100 it is lexicographic, matching `datetime` comparison. -/
def dateKey (d : PyDate) : Nat := (d.year * 100 + d.month) * 100 + d.day

/-- The value `datetime.min` used as the sort key of unparsable dates in
`PDFExtractor._extract_timeline_events` (year 1, January 1). -/
def pyDateMin : PyDate := ⟨1, 1, 1⟩

/-- Leap-year rule of the proleptic Gregorian calendar used by
`datetime`. -/
def isLeapYear (y : Nat) : Bool := y % 4 = 0 && (y % 100 ≠ 0 || y % 400 = 0)

/-- Number of days of a month, as enforced by the `datetime` constructor. -/
def daysInMonth (y m : Nat) : Nat :=
  match m with
  | 1 => 31 | 2 => if isLeapYear y then 29 else 28 | 3 => 31
  | 4 => 30 | 5 => 31 | 6 => 30 | 7 => 31 | 8 => 31
  | 9 => 30 | 10 => 31 | 11 => 30 | 12 => 31 | _ => 0

/-- Validity check of the `datetime` constructor (MINYEAR 1, MAXYEAR 9999,
month and day in calendar range); `strptime` raises `ValueError` when the
regex fields match but the resulting triple is not a real date. -/
def validDate (y m d : Nat) : Bool :=
  1 ≤ y && y ≤ 9999 && 1 ≤ m && m ≤ 12 && 1 ≤ d && d ≤ daysInMonth y m

/-- Build a date, failing exactly when `datetime(y, m, d)` would raise. -/
def mkDate? (y m d : Nat) : Option PyDate :=
  if validDate y m d then some ⟨y, m, d⟩ else none

/-- The `%m` field of CPython `_strptime`: regex `1[0-2]|0[1-9]|[1-9]`,
matched against a whole separator-free token (the separators of the four
formats used by `_parse_date` never occur inside a digit field, so a
prefix match followed by the literal separator is equivalent to a
whole-token match). -/
def monthTok? (t : List Char) : Option Nat :=
  match t with
  | [c] => if inRange '1' '9' c then some (digitVal c) else none
  | [c₁, c₂] =>
    if c₁ = '1' && inRange '0' '2' c₂ then some (10 + digitVal c₂)
    else if c₁ = '0' && inRange '1' '9' c₂ then some (digitVal c₂)
    else none
  | _ => none

/-- The `%d` field of CPython `_strptime`: regex `3[01]|[12]\d|0[1-9]|[1-9]`. -/
def dayTok? (t : List Char) : Option Nat :=
  match t with
  | [c] => if inRange '1' '9' c then some (digitVal c) else none
  | [c₁, c₂] =>
    if c₁ = '3' && inRange '0' '1' c₂ then some (30 + digitVal c₂)
    else if inRange '1' '2' c₁ && isDigit c₂ then some (10 * digitVal c₁ + digitVal c₂)
    else if c₁ = '0' && inRange '1' '9' c₂ then some (digitVal c₂)
    else none
  | _ => none

/-- The `%Y` field of CPython `_strptime`: regex `\d\d\d\d`, exactly four
digits. -/
def year4Tok? (t : List Char) : Option Nat :=
  match t with
  | [a, b, c, d] =>
    if isDigit a && isDigit b && isDigit c && isDigit d then some (natVal [a, b, c, d])
    else none
  | _ => none

/-- The `%y` field of CPython `_strptime`: regex `\d\d`, two digits, with
the pivot mapping 00-68 to 2000-2068 and 69-99 to 1969-1999. -/
def year2Tok? (t : List Char) : Option Nat :=
  match t with
  | [a, b] =>
    if isDigit a && isDigit b then
      let v := natVal [a, b]
      some (if v ≤ 68 then 2000 + v else 1900 + v)
    else none
  | _ => none

/-- Split a character list at every occurrence of a separator character
(the semantics of `str.split` for a one-character separator, used here
to decompose a token at the literal separators of a `strptime` format;
a structural implementation so that concrete instances reduce). -/
def splitOnChar (sep : Char) : List Char → List (List Char)
  | [] => [[]]
  | c :: t =>
    let r := splitOnChar sep t
    if c = sep then [] :: r
    else
      match r with
      | h :: t2 => (c :: h) :: t2
      | [] => [[c]]

/-- Format "%m/%d/%Y" of `PDFExtractor._parse_date`.  `strptime` requires
the full string to be consumed, so the string must split on the literal
separator into exactly the three digit fields. -/
def parseMDY4 (s : String) : Option PyDate :=
  match splitOnChar '/' s.toList with
  | [a, b, c] => do
    let m ← monthTok? a
    let d ← dayTok? b
    let y ← year4Tok? c
    mkDate? y m d
  | _ => none

/-- Format "%m/%d/%y" of `PDFExtractor._parse_date`. -/
def parseMDY2 (s : String) : Option PyDate :=
  match splitOnChar '/' s.toList with
  | [a, b, c] => do
    let m ← monthTok? a
    let d ← dayTok? b
    let y ← year2Tok? c
    mkDate? y m d
  | _ => none

/-- Format "%Y-%m-%d" of `PDFExtractor._parse_date`. -/
def parseYMD (s : String) : Option PyDate :=
  match splitOnChar '-' s.toList with
  | [a, b, c] => do
    let y ← year4Tok? a
    let m ← monthTok? b
    let d ← dayTok? c
    mkDate? y m d
  | _ => none

/-- Format "%d-%m-%Y" of `PDFExtractor._parse_date`. -/
def parseDMY (s : String) : Option PyDate :=
  match splitOnChar '-' s.toList with
  | [a, b, c] => do
    let d ← dayTok? a
    let m ← monthTok? b
    let y ← year4Tok? c
    mkDate? y m d
  | _ => none

/-- `PDFExtractor._parse_date`: try the four formats in order; `none`
models the final `raise ValueError` when every format fails. -/
def parse_date (s : String) : Option PyDate :=
  (parseMDY4 s).orElse fun _ =>
    (parseMDY2 s).orElse fun _ =>
      (parseYMD s).orElse fun _ => parseDMY s

/-- One `\d{1,2}/` unit of the timeline date pattern.  The regex engine
tries two digits greedily, then one; since a digit can never satisfy the
following literal `/`, the outcome is deterministic: one or two leading
digits immediately followed by `/` (three or more digits fail). -/
def parseD12 : List Char → Option (List Char × List Char)
  | a :: b :: t =>
    if !(isDigit a) then none
    else if isDigit b then
      match t with
      | '/' :: r => some ([a, b], r)
      | _ => none
    else if b = '/' then some ([a], t)
    else none
  | _ => none

/-- The look-ahead `\n\d{1,2}/\d{1,2}/\d{2,4}` of the first timeline
pattern, after the `\n`: inside a look-ahead nothing follows `\d{2,4}`,
so a digit run of length at least two suffices. -/
def lookDateMdy (cs : List Char) : Bool :=
  match parseD12 cs with
  | some (_, r1) =>
    match parseD12 r1 with
    | some (_, r2) => 2 ≤ (r2.takeWhile isDigit).length
    | none => false
  | none => false

/-- Termination test of the lazy body `(.+?)` of the first timeline
pattern, applied to the suffix after the candidate body: end of text
(`\Z`) or a newline followed by an m/d/y date token. -/
def stop1 (t : List Char) : Bool :=
  match t with
  | [] => true
  | c :: r => c = '\n' && lookDateMdy r

/-- Lazy `(.+?)` with a look-ahead: consume at least one character (any
character, the patterns use `re.DOTALL`) and stop at the first suffix
satisfying `stop`; returns (body, suffix).  All stop predicates used here
accept the empty suffix, so on a nonempty input the body is nonempty and
body ++ suffix is the input. -/
def grabContentWith (stop : List Char → Bool) : List Char → List Char × List Char
  | [] => ([], [])
  | c :: t =>
    if stop t then ([c], t)
    else
      let p := grabContentWith stop t
      (c :: p.1, p.2)

/-- String of the matched m/d/y date group. -/
def dateStr1 (m d y : List Char) : String := String.mk (m ++ '/' :: d ++ '/' :: y)

/-- Attempt of the first timeline pattern
`(\d{1,2}/\d{1,2}/\d{2,4})\s*[-|]\s*(.+?)(?=\n\d{1,2}/\d{1,2}/\d{2,4}|\Z)`
at the head of the suffix, with the backtracking of the Python engine
resolved: the year group `\d{2,4}` must exhaust its digit run (a leftover
digit would fail `\s*[-|]`), `\s*` runs are maximal (`-` and `|` are not
whitespace), and if the text ends directly after the second `\s*` the
engine backtracks one whitespace character into the body.  Returns
(date group, body group, suffix after the match). -/
def matchPat1 (cs : List Char) : Option (String × List Char × List Char) :=
  match parseD12 cs with
  | none => none
  | some (m, r1) =>
    match parseD12 r1 with
    | none => none
    | some (d, r2) =>
      let y := r2.takeWhile isDigit
      if 2 ≤ y.length && y.length ≤ 4 then
        match (r2.drop y.length).dropWhile pySpace with
        | sep :: r5 =>
          if sep = '-' || sep = '|' then
            let ws2 := r5.takeWhile pySpace
            match r5.drop ws2.length with
            | [] =>
              match ws2.getLast? with
              | some w => some (dateStr1 m d y, [w], [])
              | none => none
            | c :: t =>
              let p := grabContentWith stop1 (c :: t)
              some (dateStr1 m d y, p.1, p.2)
          else none
        | [] => none
      else none

/-- The ISO date group `\d{4}-\d{2}-\d{2}` at the head of a suffix; the
bounded repetitions are of fixed width, so the match is literal.  Returns
(the ten matched characters, suffix). -/
def isoHead? : List Char → Option (List Char × List Char)
  | a :: b :: c :: d :: '-' :: e :: f :: '-' :: g :: h :: rest =>
    if isDigit a && isDigit b && isDigit c && isDigit d && isDigit e && isDigit f
        && isDigit g && isDigit h then
      some ([a, b, c, d, '-', e, f, '-', g, h], rest)
    else none
  | _ => none

/-- ISO date token test (used by the look-ahead of the second pattern). -/
def isoTok (cs : List Char) : Bool := (isoHead? cs).isSome

/-- Termination test of the lazy body of the second timeline pattern:
end of text or a newline followed by an ISO date token. -/
def stop2 (t : List Char) : Bool :=
  match t with
  | [] => true
  | c :: r => c = '\n' && isoTok r

/-- The optional time group `(\d{2}:\d{2}[AP]M)?` at the head of a
suffix. -/
def timeTok (cs : List Char) : Bool :=
  match cs with
  | a :: b :: ':' :: c :: d :: e :: 'M' :: _ =>
    isDigit a && isDigit b && isDigit c && isDigit d && (e = 'A' || e = 'P')
  | _ => false

/-- The `\s*(.+?)` tail of the second timeline pattern on suffix `u`:
maximal whitespace run, then a lazy nonempty body; when `u` is nonempty
but entirely whitespace the engine backtracks `\s*` by one character and
the body is that final whitespace character (the following position is
end of text, accepted by `\Z`). -/
def contentFrom (u : List Char) : Option (List Char × List Char) :=
  match u.dropWhile pySpace with
  | c :: t => some (grabContentWith stop2 (c :: t))
  | [] =>
    match u.getLast? with
    | some c => some ([c], [])
    | none => none

/-- Attempt of the second timeline pattern
`(\d{4}-\d{2}-\d{2})\s+(\d{2}:\d{2}[AP]M)?\s*(.+?)(?=\n\d{4}-\d{2}-\d{2}|\Z)`
at the head of the suffix.  Backtracking resolved: `\s+` takes the
maximal whitespace run (at least one character); the optional time group
is taken greedily, and if nothing follows it the engine retries without
it; if nothing at all follows the whitespace run, `\s+` gives back one
character which becomes the body — possible only when the run has at
least two characters, since `\s+` itself must keep one.  Returns
(date group, body group, suffix after the match). -/
def matchPat2 (cs : List Char) : Option (String × List Char × List Char) :=
  match isoHead? cs with
  | none => none
  | some (dc, r0) =>
    let ws := r0.takeWhile pySpace
    if ws.length = 0 then none
    else
      let afterAll := r0.drop ws.length
      let body :=
        if timeTok afterAll then
          match contentFrom (afterAll.drop 7) with
          | some p => some p
          | none => contentFrom afterAll
        else contentFrom afterAll
      match body with
      | some p => some (String.mk dc, p.1, p.2)
      | none =>
        if 2 ≤ ws.length then
          match ws.getLast? with
          | some c => some (String.mk dc, [c], [])
          | none => none
        else none

/-- The scan loop of `re.finditer`: try the pattern at every position
left to right, and continue after the end of each (nonempty) match.
`fuel` bounds the number of steps; every step either moves one character
or past a nonempty match, so `length + 1` fuel is exact. -/
def scanMatches (matcher : List Char → Option (String × List Char × List Char)) :
    Nat → List Char → List (String × List Char)
  | 0, _ => []
  | _ + 1, [] => []
  | fuel + 1, c :: t =>
    match matcher (c :: t) with
    | some (d, content, rest) => (d, content) :: scanMatches matcher fuel rest
    | none => scanMatches matcher fuel t

/-- All matches of the first timeline pattern. -/
def finditer1 (cs : List Char) : List (String × List Char) :=
  scanMatches matchPat1 (cs.length + 1) cs

/-- All matches of the second timeline pattern. -/
def finditer2 (cs : List Char) : List (String × List Char) :=
  scanMatches matchPat2 (cs.length + 1) cs

/-- The date of a timeline event: a parsed `datetime` or, when
`_parse_date` raised, the raw date string kept verbatim. -/
inductive DateVal
  | parsed (d : PyDate)
  | raw (s : String)
deriving DecidableEq, Repr

/-- A timeline event dictionary of `_extract_timeline_events`: the body is
stripped, the `content` field is capped at 500 characters, `raw_text`
keeps the stripped body. -/
structure Event where
  date : DateVal
  content : String
  raw_text : String
deriving DecidableEq, Repr

/-- Build one event from a regex match (lines 84-98 of
src/pdf_extractor.py). -/
def mkEvent (ds : String) (body : List Char) : Event :=
  let stripped := pyStrip body
  { date := match parse_date ds with
            | some d => DateVal.parsed d
            | none => DateVal.raw ds
    content := String.mk (stripped.take 500)
    raw_text := String.mk stripped }

/-- Sort key of `_extract_timeline_events`: the parsed date, or
`datetime.min` for events whose date stayed a raw token. -/
def eventKey (e : Event) : Nat :=
  match e.date with
  | DateVal.parsed d => dateKey d
  | DateVal.raw _ => dateKey pyDateMin

/-- Stable insertion into an ascending-by-key list: the new element goes
before the first element of key not smaller; inserting earlier elements
into the sorted tail in order reproduces the stable ascending sort of
Python `sorted`. -/
def insertAsc (x : Event) : List Event → List Event
  | [] => [x]
  | y :: ys => if eventKey x ≤ eventKey y then x :: y :: ys else y :: insertAsc x ys

/-- Stable ascending sort by `eventKey` (Python `sorted(events, key=...)`). -/
def sortByKeyAsc : List Event → List Event
  | [] => []
  | x :: xs => insertAsc x (sortByKeyAsc xs)

/-- `PDFExtractor._extract_timeline_events` on a raw text: both patterns
are applied to the whole text in order, every match becomes an event, and
the events are sorted by parsed date with `datetime.min` as the key of
raw-token dates. -/
def extract_timeline_events (text : String) : List Event :=
  let cs := text.toList
  sortByKeyAsc
    ((finditer1 cs).map (fun p => mkEvent p.1 p.2)
      ++ (finditer2 cs).map (fun p => mkEvent p.1 p.2))

/-- Word-boundary-delimited occurrence of `phrase` at the head of `cs`,
where `prev` is the character just before `cs` (none at text start).
Every alternative of the indicator patterns begins and ends with a word
character, so `\b` holds exactly when the neighbouring character is
absent or not a word character. -/
def wbMatchHere (phrase : List Char) (prev : Option Char) (cs : List Char) : Bool :=
  (match prev with | none => true | some c => !wordChar c)
    && phrase.isPrefixOf cs
    && (match (cs.drop phrase.length).head? with | none => true | some c => !wordChar c)

/-- `re.search` of a single word-boundary-delimited phrase: try every
position left to right. -/
def wbSearch (phrase : List Char) : Option Char → List Char → Bool
  | prev, [] => wbMatchHere phrase prev []
  | prev, c :: t => wbMatchHere phrase prev (c :: t) || wbSearch phrase (some c) t

/-- `re.search` of an alternation `\b(p1|p2|...)\b`: some alternative
occurs with word boundaries. -/
def altSearch (phrases : List String) (cs : List Char) : Bool :=
  phrases.any (fun p => wbSearch p.toList none cs)

/-- Python `str.lower()` on the characters of a string (ASCII). -/
def pyLower (s : String) : List Char := s.toList.map Char.toLower

/-- The E-Special indicator table of `SOPRuleEngine.has_e_special_indicators`
(src/behavior_classifier.py lines 220-230), each regex alternation expanded
into its finite list of phrases; `call(ed)?` style optional groups do not
occur in this table. -/
def eSpecialIndicators : List (String × List String) :=
  [("yelling", ["yell", "scream", "shout", "raised voice"]),
   ("profanity", ["fuck", "shit", "damn", "bitch", "asshole", "profanity", "cursing", "vulgar"]),
   ("threats_lawsuit", ["lawsuit", "sue", "legal action", "taking you to court"]),
   ("threats_bar", ["state bar", "bar complaint", "report you", "file complaint"]),
   ("threats_physical", ["physical", "harm", "hurt", "violence", "beat"]),
   ("threats_review", ["bad review", "yelp", "google review", "destroy your reputation"]),
   ("accusations", ["fraud", "theft", "steal", "criminal", "scam", "con artist"]),
   ("hostile_conduct", ["pound", "slam", "aggressive", "intimidating", "hostile"]),
   ("extreme_escalation", ["only speak to", "only talk to", "refuse to speak", "hanging up", "hung up on"])]

/-- The Special indicator table of `SOPRuleEngine.has_special_indicators`
(lines 249-256); the optional group of `call(ed)? (again|multiple
times|daily|constantly)` is expanded into the eight resulting phrases. -/
def specialIndicators : List (String × List String) :=
  [("excessive_contact",
     ["call again", "call multiple times", "call daily", "call constantly",
      "called again", "called multiple times", "called daily", "called constantly",
      "excessive contact"]),
   ("dissatisfaction",
     ["dissatisfied", "unhappy", "frustrated", "concerned", "worried", "not satisfied"]),
   ("reassurance_seeking",
     ["anything happening", "any update", "what\x27s going on", "when will"]),
   ("complaints", ["complaint", "complain", "not happy with", "issue with service"]),
   ("scope_expansion", ["also need", "in addition", "can you also", "outside of contract"]),
   ("management_escalation",
     ["speak with manager", "talk to attorney", "escalate", "someone in charge"])]

/-- The matching loop shared by the two rule-engine methods: lower-case
the text, keep the categories whose pattern fires, in table order. -/
def indicatorMatches (table : List (String × List String)) (text : String) :
    Bool × List String :=
  let matched := (table.filter (fun p => altSearch p.2 (pyLower text))).map (fun p => p.1)
  (decide (0 < matched.length), matched)

/-- True when the module namespace of src/behavior_classifier.py binds the
name `re`.  The module imports (lines 6-8) are `os`, names from `typing`,
and `Anthropic`; the only `import re` (line 141) is inside the body of
`_parse_analysis_response` and binds a local variable of that function, so
at module scope, where the static methods of `SOPRuleEngine` resolve
`re.search`, the name is unbound. -/
def moduleBindsRe : Bool := false

/-- The error message of the `NameError` raised when a module-scope
reference to `re` is evaluated. -/
def nameErrorRe : String := "NameError: name re is not defined"

/-- `SOPRuleEngine.has_e_special_indicators`: evaluating `re.search`
raises `NameError` unless the module binds `re`; with `re` bound it would
return the matched categories. -/
def has_e_special_indicators (text : String) : Except String (Bool × List String) :=
  if moduleBindsRe then Except.ok (indicatorMatches eSpecialIndicators text)
  else Except.error nameErrorRe

/-- `SOPRuleEngine.has_special_indicators`, same structure. -/
def has_special_indicators (text : String) : Except String (Bool × List String) :=
  if moduleBindsRe then Except.ok (indicatorMatches specialIndicators text)
  else Except.error nameErrorRe

/-- Case-insensitive prefix test (ASCII case folding, the effect of
`re.IGNORECASE` on literal letters). -/
def ciPrefix : List Char → List Char → Bool
  | [], _ => true
  | _ :: _, [] => false
  | p :: ps, c :: cs => (p.toLower = c.toLower) && ciPrefix ps cs

/-- Case-insensitive substring test, for stating label occurrence. -/
def containsCI (pat : List Char) : List Char → Bool
  | [] => pat.isEmpty
  | c :: t => ciPrefix pat (c :: t) || containsCI pat t

/-- The class `[A-Z\s]` under `re.IGNORECASE`: any ASCII letter or
whitespace character. -/
def letterWs (c : Char) : Bool := asciiLetter c || pySpace c

/-- Termination test of the lazy capture of `_parse_analysis_response`:
the look-ahead `(?=\n[A-Z\s]+:|$)` on the suffix after the capture.
With `re.DOTALL` but not `re.MULTILINE`, `$` matches at end of text or
just before a final newline; the bracket run is greedy and must be
followed by the literal colon. -/
def stopF (t : List Char) : Bool :=
  match t with
  | [] => true
  | c :: r =>
    c = '\n'
      && (r.isEmpty
        || (let run := r.takeWhile letterWs
            decide (1 ≤ run.length)
              && (match (r.drop run.length).head? with | some ':' => true | _ => false)))

/-- Attempt of the field pattern `LABEL:\s*(.+?)(?=\n[A-Z\s]+:|$)` at the
head of a suffix: the label and colon case-insensitively, a maximal
whitespace run, then the lazy capture; when the text ends directly after
the whitespace run the engine backtracks one whitespace character into
the capture (the following position is end of text, matched by `$`).
Returns the raw capture group. -/
def matchField (label : List Char) (cs : List Char) : Option (List Char) :=
  if ciPrefix (label ++ [':']) cs then
    let q0 := cs.drop (label.length + 1)
    let ws := q0.takeWhile pySpace
    match q0.drop ws.length with
    | c :: t => some (grabContentWith stopF (c :: t)).1
    | [] =>
      match ws.getLast? with
      | some w => some [w]
      | none => none
  else none

/-- The scan of `re.search` for the field pattern: first position at
which the pattern matches. -/
def searchField (label : List Char) : List Char → Option (List Char)
  | [] => none
  | c :: t =>
    match matchField label (c :: t) with
    | some cap => some cap
    | none => searchField label t

/-- `extract_field` inside `_parse_analysis_response`: the stripped first
match, or the placeholder when the pattern matches nowhere. -/
def extract_field (label : String) (text : String) : String :=
  match searchField label.toList text.toList with
  | some cap => String.mk (pyStrip cap)
  | none => "Not specified"

/-- A case dictionary as consumed by the classifier (the keys used by
`analyze_client` / `batch_analyze`; the record always carries the keys,
so the `.get` defaults of the source never fire here). -/
structure CaseData where
  case_name : String
  pdf_filename : String
  timeline_events : List Event
  raw_text : String
deriving DecidableEq, Repr

/-- The structured result dictionary of `_parse_analysis_response` /
`batch_analyze`. -/
structure AnalysisResult where
  case_name : String
  pdf_filename : String
  classification : String
  notice_sent : String
  firm_fault : String
  firm_fault_explanation : String
  current_status : String
  recommendation : String
  reasoning : String
  key_evidence : String
  full_analysis : String
deriving DecidableEq, Repr

/-- The eight field labels extracted by `_parse_analysis_response`. -/
def expectedLabels : List String :=
  ["CLASSIFICATION", "NOTICE SENT", "FIRM FAULT", "FIRM FAULT EXPLANATION",
   "CURRENT STATUS", "RECOMMENDATION", "REASONING", "KEY EVIDENCE"]

/-- `BehaviorClassifier._parse_analysis_response`: build the result
record by extracting each labelled field from the reply text. -/
def parse_analysis_response (response_text : String) (c : CaseData) : AnalysisResult :=
  { case_name := c.case_name
    pdf_filename := c.pdf_filename
    classification := extract_field "CLASSIFICATION" response_text
    notice_sent := extract_field "NOTICE SENT" response_text
    firm_fault := extract_field "FIRM FAULT" response_text
    firm_fault_explanation := extract_field "FIRM FAULT EXPLANATION" response_text
    current_status := extract_field "CURRENT STATUS" response_text
    recommendation := extract_field "RECOMMENDATION" response_text
    reasoning := extract_field "REASONING" response_text
    key_evidence := extract_field "KEY EVIDENCE" response_text
    full_analysis := response_text }

/-- `BehaviorClassifier.analyze_client` with the external oracle (prompt
construction plus `messages.create`) abstracted as a function from the
case to either the reply text or the raised error; on success the reply
is parsed. -/
def analyze_client (oracle : CaseData → Except String String) (c : CaseData) :
    Except String AnalysisResult :=
  match oracle c with
  | Except.ok reply => Except.ok (parse_analysis_response reply c)
  | Except.error e => Except.error e

/-- The explicit error result appended by the `except` branch of
`batch_analyze` (lines 189-201 of src/behavior_classifier.py). -/
def error_result (c : CaseData) (e : String) : AnalysisResult :=
  { case_name := c.case_name
    pdf_filename := c.pdf_filename
    classification := "Error during analysis"
    notice_sent := "N/A"
    firm_fault := "N/A"
    firm_fault_explanation := "Error: " ++ e
    current_status := "Error"
    recommendation := "Manual review required"
    reasoning := "Automated analysis failed"
    key_evidence := "N/A"
    full_analysis := "Error: " ++ e }

/-- Loop body of `batch_analyze`: the progress callback is invoked before
the `try` block, so an exception it raises propagates and aborts the
whole batch; the per-case analysis is inside the `try` and its failure
becomes an `error_result`. -/
def batchGo (oracle : CaseData → Except String String)
    (cb : Option (Nat → Nat → Except String Unit)) (total : Nat) :
    Nat → List CaseData → Except String (List AnalysisResult)
  | _, [] => Except.ok []
  | i, c :: rest =>
    match (match cb with | some f => f i total | none => Except.ok ()) with
    | Except.error e => Except.error e
    | Except.ok _ =>
      let r := match analyze_client oracle c with
               | Except.ok r => r
               | Except.error e => error_result c e
      match batchGo oracle cb total (i + 1) rest with
      | Except.ok rs => Except.ok (r :: rs)
      | Except.error e => Except.error e

/-- `BehaviorClassifier.batch_analyze`: enumerate from 1, callback first,
per-case try/except, collect results in order. -/
def batch_analyze (oracle : CaseData → Except String String)
    (cb : Option (Nat → Nat → Except String Unit)) (cases : List CaseData) :
    Except String (List AnalysisResult) :=
  batchGo oracle cb cases.length 1 cases

/-- The result one loop iteration of `batch_analyze` records for a case:
the parsed analysis on oracle success, the explicit error result on
oracle failure. -/
def result_for (oracle : CaseData → Except String String) (c : CaseData) : AnalysisResult :=
  match analyze_client oracle c with
  | Except.ok r => r
  | Except.error e => error_result c e

/-- The keyword lexicon of `PDFExtractor.get_communication_snippets`
(lines 155-160 of src/pdf_extractor.py). -/
def priority_keywords : List String :=
  ["yell", "scream", "profanity", "threat", "lawsuit", "state bar",
   "fraud", "incompetent", "complaint", "demand", "angry", "upset",
   "dissatisfied", "frustrated", "fire", "terminate", "refund",
   "review", "google", "yelp", "hang up", "refused to speak"]

/-- Python substring containment (the `in` operator on strings). -/
def containsSub (pat : List Char) : List Char → Bool
  | [] => pat.isEmpty
  | c :: t => pat.isPrefixOf (c :: t) || containsSub pat t

/-- The salience score of one event: the number of lexicon keywords that
occur in the lower-cased body. -/
def scoreEvent (e : Event) : Nat :=
  (priority_keywords.filter (fun k => containsSub k.toList (pyLower e.raw_text))).length

/-- Stable insertion into a descending-by-score list: the new element
goes before the first element of score not larger; since elements are
inserted in original order, equal scores keep original order — the
behaviour of the stable Python `list.sort(key=..., reverse=True)`. -/
def insertDesc (x : Nat × Event) : List (Nat × Event) → List (Nat × Event)
  | [] => [x]
  | y :: ys => if y.1 ≤ x.1 then x :: y :: ys else y :: insertDesc x ys

/-- Stable descending sort by score. -/
def sortDescByScore : List (Nat × Event) → List (Nat × Event)
  | [] => []
  | x :: xs => insertDesc x (sortDescByScore xs)

/-- Python slice `events[-limit:]`: the last `limit` elements — except
that for `limit = 0` the slice is `[-0:]`, which is the whole list. -/
def lastSlice (limit : Nat) (events : List Event) : List Event :=
  if limit = 0 then events else events.drop (events.length - limit)

/-- `PDFExtractor.get_communication_snippets`: score every event, stable
descending sort by score, truncate to `limit`, drop zero scores; if
nothing positive survives, fall back to the most recent events. -/
def get_communication_snippets (events : List Event) (limit : Nat) : List String :=
  match events with
  | [] => []
  | _ :: _ =>
    let scored : List (Nat × Event) := events.map (fun e => (scoreEvent e, e))
    let top : List (Nat × Event) :=
      ((sortDescByScore scored).take limit).filter (fun p => 0 < p.1)
    let chosen : List Event :=
      match top with
      | [] => lastSlice limit events
      | _ :: _ => top.map (fun p => p.2)
    chosen.map (fun e => e.raw_text)

/-- All characters are digits. -/
def allDigits (t : List Char) : Bool := t.all isDigit

/-- Spec-side date grammar (used only to state claim C8, following the
claim wording, independent of the parser): a month field is one or two
digits with value 1..12. -/
def specMonthField (t : List Char) : Bool :=
  (t.length = 1 || t.length = 2) && allDigits t && 1 ≤ natVal t && natVal t ≤ 12

/-- Spec-side day field: one or two digits with value 1..31. -/
def specDayField (t : List Char) : Bool :=
  (t.length = 1 || t.length = 2) && allDigits t && 1 ≤ natVal t && natVal t ≤ 31

/-- Spec-side four-digit year field. -/
def specYear4Field (t : List Char) : Bool :=
  (t.length = 4) && allDigits t

/-- Spec-side two-digit year field. -/
def specYear2Field (t : List Char) : Bool :=
  (t.length = 2) && allDigits t

/-- The supported date grammars as the claim states them: month/day/year
with two- or four-digit year (slash separated), ISO year-month-day, and
day-month-year (dash separated), always matching the whole token. -/
def specDateGrammar (s : String) : Bool :=
  (match splitOnChar '/' s.toList with
   | [a, b, c] => specMonthField a && specDayField b && (specYear4Field c || specYear2Field c)
   | _ => false)
  || (match splitOnChar '-' s.toList with
      | [a, b, c] =>
        (specYear4Field a && specMonthField b && specDayField c)
          || (specDayField a && specMonthField b && specYear4Field c)
      | _ => false)

/-- Suffix after the first case-insensitive occurrence of `pat`. -/
def findCI (pat : List Char) : List Char → Option (List Char)
  | [] => if pat.isEmpty then some [] else none
  | c :: t => if ciPrefix pat (c :: t) then some ((c :: t).drop pat.length) else findCI pat t

/-- Text up to the first case-insensitive occurrence of any of the given
labels followed by a colon (the whole text when none occurs). -/
def uptoAnyLabelCI (labels : List (List Char)) : List Char → List Char
  | [] => []
  | c :: t =>
    if labels.any (fun L => ciPrefix (L ++ [':']) (c :: t)) then []
    else c :: uptoAnyLabelCI labels t

/-- The capture rule asserted by claim C9, following its wording (used
only to state that claim): the text after the first occurrence of the
label, up to the next occurrence of one of the eight expected field
labels or the end of text, stripped; the placeholder when the label is
absent. -/
def claimFieldCapture (label : String) (text : String) : String :=
  match findCI (label.toList ++ [':']) text.toList with
  | some rest =>
    String.mk (pyStrip (uptoAnyLabelCI (expectedLabels.map (fun L => L.toList)) rest))
  | none => "Not specified"

/-- Spec-side notion for claim C6 (following its wording): a line that
begins with a well-formed date token of either supported grammar. -/
def dateLeadingLine (line : List Char) : Bool :=
  lookDateMdy line || isoTok line

/-- Number of date-leading lines of a text (claim C6 wording). -/
def specDateLeadingLineCount (text : String) : Nat :=
  ((splitOnChar '\n' text.toList).filter dateLeadingLine).length

/-- No suffix of the text begins with a date token of either grammar. -/
def noDateTokens : List Char → Bool
  | [] => true
  | c :: t => !lookDateMdy (c :: t) && !isoTok (c :: t) && noDateTokens t

/-- No suffix of the text begins with an ISO date token. -/
def noIsoTokens : List Char → Bool
  | [] => true
  | c :: t => !isoTok (c :: t) && noIsoTokens t

/-- Whitespace other than newline (for the interior of a single line). -/
def lineWs (c : Char) : Bool := pySpace c && c ≠ '\n'

/-- One or two digit characters. -/
def digits12 (t : List Char) : Bool :=
  match t with
  | [a] => isDigit a
  | [a, b] => isDigit a && isDigit b
  | _ => false

/-- A well-formed timeline line for claim C6: date token `d1/d2/yr`,
optional spacing, a dash or pipe separator, optional spacing, and a
nonempty single-line body starting with a non-whitespace character. -/
structure TLine where
  d1 : List Char
  d2 : List Char
  yr : List Char
  ws1 : List Char
  sep : Char
  ws2 : List Char
  body : List Char
deriving Repr

/-- Well-formedness of a timeline line (see `TLine`). -/
def wfLine (l : TLine) : Bool :=
  digits12 l.d1 && digits12 l.d2
    && allDigits l.yr && 2 ≤ l.yr.length && l.yr.length ≤ 4
    && l.ws1.all lineWs && (l.sep = '-' || l.sep = '|') && l.ws2.all lineWs
    && (match l.body with | [] => false | c :: _ => !pySpace c)
    && l.body.all (fun c => c ≠ '\n')

/-- Characters of one rendered line. -/
def renderLine (l : TLine) : List Char :=
  l.d1 ++ '/' :: l.d2 ++ '/' :: l.yr ++ l.ws1 ++ l.sep :: l.ws2 ++ l.body

/-- A text of newline-separated rendered lines. -/
def renderLines : List TLine → List Char
  | [] => []
  | [l] => renderLine l
  | l :: l2 :: ls => renderLine l ++ '\n' :: renderLines (l2 :: ls)

/-- The date group string of a rendered line. -/
def lineDateStr (l : TLine) : String :=
  String.mk (l.d1 ++ '/' :: l.d2 ++ '/' :: l.yr)

/-! ## Lemmas about the stable insertion sorts -/

theorem insertAsc_perm (x : Event) (l : List Event) : (insertAsc x l).Perm (x :: l) := by
  induction l with
  | nil => simp [insertAsc]
  | cons y ys ih =>
    unfold insertAsc
    split
    · exact List.Perm.refl _
    · exact ((ih.cons y).trans (List.Perm.swap x y ys))

theorem sortByKeyAsc_perm (l : List Event) : (sortByKeyAsc l).Perm l := by
  induction l with
  | nil => simp [sortByKeyAsc]
  | cons x xs ih =>
    unfold sortByKeyAsc
    exact (insertAsc_perm x (sortByKeyAsc xs)).trans (ih.cons x)

theorem sortByKeyAsc_length (l : List Event) : (sortByKeyAsc l).length = l.length :=
  (sortByKeyAsc_perm l).length_eq

theorem insertAsc_sorted (x : Event) (l : List Event)
    (h : l.Pairwise (fun a b => eventKey a ≤ eventKey b)) :
    (insertAsc x l).Pairwise (fun a b => eventKey a ≤ eventKey b) := by
  induction l with
  | nil => simp [insertAsc]
  | cons y ys ih =>
    unfold insertAsc
    split
    · rename_i hxy
      refine List.Pairwise.cons ?_ h
      intro z hz
      rcases List.mem_cons.mp hz with rfl | hz2
      · exact hxy
      · exact le_trans hxy (List.rel_of_pairwise_cons h hz2)
    · rename_i hxy
      refine List.Pairwise.cons ?_ (ih h.tail)
      intro z hz
      have hz2 := (insertAsc_perm x ys).mem_iff.mp hz
      rcases List.mem_cons.mp hz2 with rfl | hz3
      · exact le_of_not_le hxy
      · exact List.rel_of_pairwise_cons h hz3

theorem sortByKeyAsc_sorted (l : List Event) :
    (sortByKeyAsc l).Pairwise (fun a b => eventKey a ≤ eventKey b) := by
  induction l with
  | nil => simp [sortByKeyAsc]
  | cons x xs ih => exact insertAsc_sorted x _ ih

theorem insertDesc_perm (x : Nat × Event) (l : List (Nat × Event)) :
    (insertDesc x l).Perm (x :: l) := by
  induction l with
  | nil => simp [insertDesc]
  | cons y ys ih =>
    unfold insertDesc
    split
    · exact List.Perm.refl _
    · exact ((ih.cons y).trans (List.Perm.swap x y ys))

theorem sortDescByScore_perm (l : List (Nat × Event)) : (sortDescByScore l).Perm l := by
  induction l with
  | nil => simp [sortDescByScore]
  | cons x xs ih =>
    unfold sortDescByScore
    exact (insertDesc_perm x (sortDescByScore xs)).trans (ih.cons x)

theorem insertDesc_sorted (x : Nat × Event) (l : List (Nat × Event))
    (h : l.Pairwise (fun a b => b.1 ≤ a.1)) :
    (insertDesc x l).Pairwise (fun a b => b.1 ≤ a.1) := by
  induction l with
  | nil => simp [insertDesc]
  | cons y ys ih =>
    unfold insertDesc
    split
    · rename_i hxy
      refine List.Pairwise.cons ?_ h
      intro z hz
      rcases List.mem_cons.mp hz with rfl | hz2
      · exact hxy
      · exact le_trans (List.rel_of_pairwise_cons h hz2) hxy
    · rename_i hxy
      refine List.Pairwise.cons ?_ (ih h.tail)
      intro z hz
      have hz2 := (insertDesc_perm x ys).mem_iff.mp hz
      rcases List.mem_cons.mp hz2 with rfl | hz3
      · exact le_of_not_le hxy
      · exact List.rel_of_pairwise_cons h hz3

theorem sortDescByScore_sorted (l : List (Nat × Event)) :
    (sortDescByScore l).Pairwise (fun a b => b.1 ≤ a.1) := by
  induction l with
  | nil => simp [sortDescByScore]
  | cons x xs ih => exact insertDesc_sorted x _ ih

theorem insertDesc_filter (x : Nat × Event) (l : List (Nat × Event)) (k : Nat) :
    (insertDesc x l).filter (fun p => p.1 = k)
      = if x.1 = k then x :: l.filter (fun p => p.1 = k)
        else l.filter (fun p => p.1 = k) := by
  induction l with
  | nil => by_cases hx : x.1 = k <;> simp [insertDesc, hx]
  | cons y ys ih =>
    unfold insertDesc
    split
    · by_cases hx : x.1 = k <;> simp [List.filter_cons, hx]
    · rename_i hyx
      have hylt : x.1 < y.1 := Nat.lt_of_not_le hyx
      by_cases hx : x.1 = k
      · have hy : ¬ (y.1 = k) := by omega
        simp [hx, hy, List.filter_cons, ih]
      · by_cases hy : y.1 = k <;> simp [hx, hy, List.filter_cons, ih]

/-- Stability of the descending sort: for every score value the elements
of that score appear in their original order. -/
theorem sortDescByScore_filter (l : List (Nat × Event)) (k : Nat) :
    (sortDescByScore l).filter (fun p => p.1 = k) = l.filter (fun p => p.1 = k) := by
  induction l with
  | nil => simp [sortDescByScore]
  | cons x xs ih =>
    unfold sortDescByScore
    rw [insertDesc_filter]
    by_cases hx : x.1 = k <;> simp [hx, List.filter_cons, ih]

/-! ## Lemmas about batch_analyze -/

theorem batchGo_ok (oracle : CaseData → Except String String)
    (cb : Option (Nat → Nat → Except String Unit))
    (hcb : ∀ g, cb = some g → ∀ a b, g a b = Except.ok ())
    (total : Nat) :
    ∀ (cases : List CaseData) (i : Nat),
      batchGo oracle cb total i cases = Except.ok (cases.map (result_for oracle)) := by
  intro cases
  induction cases with
  | nil => intro i; rfl
  | cons c rest ih =>
    intro i
    have hstep : (match cb with | some f => f i total | none => Except.ok ()) = Except.ok () := by
      cases cb with
      | none => rfl
      | some g => exact hcb g rfl i total
    simp only [batchGo, hstep, ih (i + 1)]
    rfl

theorem batchGo_cb_error (oracle : CaseData → Except String String)
    (cb : Nat → Nat → Except String Unit) (total : Nat) (e : String) :
    ∀ (cases : List CaseData) (i k : Nat), i < cases.length →
      (∀ j, j < i → cb (k + j) total = Except.ok ()) →
      cb (k + i) total = Except.error e →
      batchGo oracle (some cb) total k cases = Except.error e := by
  intro cases
  induction cases with
  | nil => intro i k hi _ _; simp at hi
  | cons c rest ih =>
    intro i k hi hok herr
    cases i with
    | zero =>
      simp only [batchGo]
      rw [show cb k total = Except.error e from herr]
    | succ i' =>
      have h0 : cb k total = Except.ok () := by
        have := hok 0 (Nat.succ_pos i')
        simpa using this
      simp only [batchGo, h0]
      have htail : batchGo oracle (some cb) total (k + 1) rest = Except.error e := by
        apply ih i' (k + 1) (by simpa using hi)
        · intro j hj
          have := hok (j + 1) (by omega)
          simpa [Nat.add_assoc, Nat.add_comm 1 j] using this
        · have : k + 1 + i' = k + (i' + 1) := by omega
          rw [this]
          exact herr
      rw [htail]

/-- Claim C4: with a benign (or absent) progress callback, `batch_analyze`
returns one result per input case, in order: the parsed analysis when the
oracle call succeeds, the explicit error result when it raises; no case is
dropped and no other case is affected. -/
theorem C4_batch_one_result_per_case (oracle : CaseData → Except String String)
    (cb : Option (Nat → Nat → Except String Unit)) (cases : List CaseData)
    (hcb : ∀ g, cb = some g → ∀ a b, g a b = Except.ok ()) :
    batch_analyze oracle cb cases = Except.ok (cases.map (result_for oracle))
    ∧ (cases.map (result_for oracle)).length = cases.length
    ∧ ∀ c ∈ cases,
        (∃ r, analyze_client oracle c = Except.ok r ∧ result_for oracle c = r)
        ∨ (∃ e, oracle c = Except.error e ∧ result_for oracle c = error_result c e) := by
  refine ⟨batchGo_ok oracle cb hcb cases.length cases 1, by simp, ?_⟩
  intro c _
  cases h : oracle c with
  | ok reply =>
    left
    exact ⟨parse_analysis_response reply c, by simp [analyze_client, h], by simp [result_for, analyze_client, h]⟩
  | error e =>
    right
    exact ⟨e, rfl, by simp [result_for, analyze_client, h]⟩

/-- Witness for C4 at a concrete batch of two cases, one failing. -/
theorem C4_batch_one_result_per_case_witness :
    batch_analyze
        (fun c => if c.case_name = "A" then Except.ok "CLASSIFICATION: Normal" else Except.error "boom")
        (some (fun _ _ => Except.ok ()))
        [⟨"A", "a.pdf", [], ""⟩, ⟨"B", "b.pdf", [], ""⟩]
      = Except.ok
          ([⟨"A", "a.pdf", [], ""⟩, ⟨"B", "b.pdf", [], ""⟩].map
            (result_for (fun c => if c.case_name = "A" then Except.ok "CLASSIFICATION: Normal" else Except.error "boom"))) := by
  exact (C4_batch_one_result_per_case _ _ _ (by intro g hg a b; cases hg; rfl)).1

/-- Claim C1 (amended): when the oracle call for a case fails, the
recorded result for that case is the fixed error record — classification
"Error during analysis" and recommendation "Manual review required"
(never "Continue representation") — independent of any rule-engine
indicators, which `batch_analyze` does not consult. -/
theorem C1_amended_error_record (oracle : CaseData → Except String String)
    (cases : List CaseData) (i : Nat) (hi : i < cases.length) (e : String)
    (h : oracle (cases.get ⟨i, hi⟩) = Except.error e) :
    ∃ rs, batch_analyze oracle none cases = Except.ok rs
      ∧ rs.length = cases.length
      ∧ rs[i]? = some (error_result (cases.get ⟨i, hi⟩) e)
      ∧ (error_result (cases.get ⟨i, hi⟩) e).classification = "Error during analysis"
      ∧ (error_result (cases.get ⟨i, hi⟩) e).recommendation = "Manual review required" := by
  refine ⟨cases.map (result_for oracle), batchGo_ok oracle none (by intro g hg; cases hg) cases.length cases 1, by simp, ?_, rfl, rfl⟩
  rw [List.get_eq_getElem] at h
  rw [List.getElem?_map, List.getElem?_eq_getElem hi]
  simp [result_for, analyze_client, h]

/-- Witness for C1 (amended): a case whose salient text carries
Excessively-Special indicators still yields the fixed error record when
the oracle fails. -/
theorem C1_amended_error_record_witness :
    ∃ rs, batch_analyze (fun _ => Except.error "quota")
        none [⟨"X", "x.pdf", [⟨DateVal.parsed ⟨2024, 1, 2⟩, "I will sue you", "I will sue you"⟩], "I will sue you"⟩]
        = Except.ok rs
      ∧ rs.length = 1
      ∧ rs[0]? = some (error_result ⟨"X", "x.pdf", [⟨DateVal.parsed ⟨2024, 1, 2⟩, "I will sue you", "I will sue you"⟩], "I will sue you"⟩ "quota")
      ∧ (error_result ⟨"X", "x.pdf", [⟨DateVal.parsed ⟨2024, 1, 2⟩, "I will sue you", "I will sue you"⟩], "I will sue you"⟩ "quota").classification = "Error during analysis"
      ∧ (error_result ⟨"X", "x.pdf", [⟨DateVal.parsed ⟨2024, 1, 2⟩, "I will sue you", "I will sue you"⟩], "I will sue you"⟩ "quota").recommendation = "Manual review required" :=
  C1_amended_error_record (fun _ => Except.error "quota") _ 0 (by simp) "quota" rfl

/-- Counterexample to claim C1 as stated: a case whose salient event text
contains Excessively-Special indicators (the rule engine core reports
threats_lawsuit) but whose classification after oracle failure is the
fixed string "Error during analysis", not the E-Special classification,
and whose recommendation is "Manual review required", not executive
review. -/
theorem C1_counterexample :
    (indicatorMatches eSpecialIndicators "I will sue you").1 = true
    ∧ batch_analyze (fun _ => Except.error "APIError") none
        [⟨"X", "x.pdf", [⟨DateVal.parsed ⟨2024, 1, 2⟩, "I will sue you", "I will sue you"⟩], "I will sue you"⟩]
      = Except.ok [error_result ⟨"X", "x.pdf", [⟨DateVal.parsed ⟨2024, 1, 2⟩, "I will sue you", "I will sue you"⟩], "I will sue you"⟩ "APIError"]
    ∧ (error_result ⟨"X", "x.pdf", [⟨DateVal.parsed ⟨2024, 1, 2⟩, "I will sue you", "I will sue you"⟩], "I will sue you"⟩ "APIError").classification = "Error during analysis"
    ∧ ("Error during analysis" = "E-Special" → False)
    ∧ (error_result ⟨"X", "x.pdf", [⟨DateVal.parsed ⟨2024, 1, 2⟩, "I will sue you", "I will sue you"⟩], "I will sue you"⟩ "APIError").recommendation = "Manual review required"
    ∧ ("Manual review required" = "Executive Review Required" → False) := by
  refine ⟨by decide, rfl, rfl, by decide, rfl, by decide⟩

/-- Claim C10: the progress callback runs outside the per-case exception
handler, so a callback that raises at some case aborts the whole batch:
`batch_analyze` propagates the exception and returns no results at all. -/
theorem C10_callback_aborts_batch (oracle : CaseData → Except String String)
    (cb : Nat → Nat → Except String Unit) (cases : List CaseData)
    (i : Nat) (hi : i < cases.length) (e : String)
    (hok : ∀ j, j < i → cb (j + 1) cases.length = Except.ok ())
    (herr : cb (i + 1) cases.length = Except.error e) :
    batch_analyze oracle (some cb) cases = Except.error e := by
  apply batchGo_cb_error oracle cb cases.length e cases i 1 hi
  · intro j hj
    have := hok j hj
    simpa [Nat.add_comm 1 j] using this
  · simpa [Nat.add_comm 1 i] using herr

/-- Witness for C10: a callback that raises on the first case makes the
batch return its error instead of any results. -/
theorem C10_callback_aborts_batch_witness :
    batch_analyze (fun _ => Except.ok "CLASSIFICATION: Normal")
        (some (fun _ _ => Except.error "callback boom"))
        [⟨"A", "a.pdf", [], ""⟩]
      = Except.error "callback boom" :=
  C10_callback_aborts_batch _ _ _ 0 (by simp) "callback boom" (by intro j hj; omega) rfl

/-- Claim C3: both static methods of `SOPRuleEngine` evaluate `re.search`
with the name `re` unbound at module scope (the only `import re` is local
to `_parse_analysis_response`), so every call raises `NameError` and no
tag list is ever returned. -/
theorem C3_rule_engine_raises (s : String) :
    has_e_special_indicators s = Except.error nameErrorRe
    ∧ has_special_indicators s = Except.error nameErrorRe :=
  ⟨rfl, rfl⟩

/-- Claim C2 (code intent vs. actual behaviour): the matching logic of
the indicator tables yields exactly the claimed tags on the two
reference texts — threats_lawsuit and threats_bar for the State-Bar
threat, scope_expansion alone for the scope-expansion request — but the
shipped methods raise `NameError` instead of returning them. -/
theorem C2_indicator_reference_texts :
    has_e_special_indicators "I will sue you and report you to the State Bar"
        = Except.error nameErrorRe
    ∧ indicatorMatches eSpecialIndicators "I will sue you and report you to the State Bar"
        = (true, ["threats_lawsuit", "threats_bar"])
    ∧ indicatorMatches specialIndicators "can you also help with an unrelated matter"
        = (true, ["scope_expansion"])
    ∧ indicatorMatches eSpecialIndicators "can you also help with an unrelated matter"
        = (false, []) := by
  refine ⟨rfl, by decide, by decide, by decide⟩

/-! ## The date parser and the supported grammars (C8) -/

theorem monthTok_fields (t : List Char) (m : Nat) (h : monthTok? t = some m) :
    (t.length = 1 ∨ t.length = 2) ∧ allDigits t = true ∧ 1 ≤ natVal t ∧ natVal t ≤ 12 := by
  have e0 : ('0' : Char).toNat = 48 := rfl
  have e1 : ('1' : Char).toNat = 49 := rfl
  have e2 : ('2' : Char).toNat = 50 := rfl
  have e9 : ('9' : Char).toNat = 57 := rfl
  match t with
  | [] => simp [monthTok?] at h
  | [c] =>
    simp only [monthTok?] at h
    split at h
    · rename_i hin
      simp only [inRange, Bool.and_eq_true, decide_eq_true_eq] at hin
      rw [e1, e9] at hin
      refine ⟨Or.inl rfl, ?_, ?_, ?_⟩
      · simp [allDigits, isDigit]; omega
      · simp [natVal, digitVal]; omega
      · simp [natVal, digitVal]; omega
    · simp at h
  | [c₁, c₂] =>
    simp only [monthTok?] at h
    split at h
    · rename_i hin
      simp only [inRange, Bool.and_eq_true, decide_eq_true_eq] at hin
      obtain ⟨hc₁, hc₂⟩ := hin
      rw [e0, e2] at hc₂
      have hc₁n : c₁.toNat = 49 := by rw [hc₁]; exact e1
      refine ⟨Or.inr rfl, ?_, ?_, ?_⟩
      · simp [allDigits, isDigit]; omega
      · simp [natVal, digitVal]; omega
      · simp [natVal, digitVal]; omega
    · split at h
      · rename_i hin
        simp only [inRange, Bool.and_eq_true, decide_eq_true_eq] at hin
        obtain ⟨hc₁, hc₂⟩ := hin
        rw [e1, e9] at hc₂
        have hc₁n : c₁.toNat = 48 := by rw [hc₁]; exact e0
        refine ⟨Or.inr rfl, ?_, ?_, ?_⟩
        · simp [allDigits, isDigit]; omega
        · simp [natVal, digitVal]; omega
        · simp [natVal, digitVal]; omega
      · simp at h
  | _ :: _ :: _ :: _ => simp [monthTok?] at h

theorem dayTok_fields (t : List Char) (m : Nat) (h : dayTok? t = some m) :
    (t.length = 1 ∨ t.length = 2) ∧ allDigits t = true ∧ 1 ≤ natVal t ∧ natVal t ≤ 31 := by
  have e0 : ('0' : Char).toNat = 48 := rfl
  have e1 : ('1' : Char).toNat = 49 := rfl
  have e2 : ('2' : Char).toNat = 50 := rfl
  have e3 : ('3' : Char).toNat = 51 := rfl
  have e9 : ('9' : Char).toNat = 57 := rfl
  match t with
  | [] => simp [dayTok?] at h
  | [c] =>
    simp only [dayTok?] at h
    split at h
    · rename_i hin
      simp only [inRange, Bool.and_eq_true, decide_eq_true_eq] at hin
      rw [e1, e9] at hin
      refine ⟨Or.inl rfl, ?_, ?_, ?_⟩
      · simp [allDigits, isDigit]; omega
      · simp [natVal, digitVal]; omega
      · simp [natVal, digitVal]; omega
    · simp at h
  | [c₁, c₂] =>
    simp only [dayTok?] at h
    refine ⟨Or.inr rfl, ?_⟩
    split at h
    · rename_i hin
      simp only [inRange, Bool.and_eq_true, decide_eq_true_eq] at hin
      obtain ⟨hc₁, hc₂⟩ := hin
      rw [e0, e1] at hc₂
      have hc₁n : c₁.toNat = 51 := by rw [hc₁]; exact e3
      refine ⟨by simp [allDigits, isDigit]; omega, by simp [natVal, digitVal]; omega, by simp [natVal, digitVal]; omega⟩
    · split at h
      · rename_i hin
        simp only [inRange, Bool.and_eq_true, decide_eq_true_eq, isDigit] at hin
        obtain ⟨hc₁, hc₂⟩ := hin
        rw [e1, e2] at hc₁
        refine ⟨by simp [allDigits, isDigit]; omega, by simp [natVal, digitVal]; omega, by simp [natVal, digitVal]; omega⟩
      · split at h
        · rename_i hin
          simp only [inRange, Bool.and_eq_true, decide_eq_true_eq] at hin
          obtain ⟨hc₁, hc₂⟩ := hin
          rw [e1, e9] at hc₂
          have hc₁n : c₁.toNat = 48 := by rw [hc₁]; exact e0
          refine ⟨by simp [allDigits, isDigit]; omega, by simp [natVal, digitVal]; omega, by simp [natVal, digitVal]; omega⟩
        · simp at h
  | _ :: _ :: _ :: _ => simp [dayTok?] at h

theorem year4Tok_fields (t : List Char) (y : Nat) (h : year4Tok? t = some y) :
    t.length = 4 ∧ allDigits t = true := by
  match t with
  | [] => simp [year4Tok?] at h
  | [_] => simp [year4Tok?] at h
  | [_, _] => simp [year4Tok?] at h
  | [_, _, _] => simp [year4Tok?] at h
  | [a, b, c, d] =>
    simp only [year4Tok?] at h
    split at h
    · rename_i hd
      simp only [Bool.and_eq_true] at hd
      refine ⟨rfl, ?_⟩
      simp [allDigits, hd.1.1.1, hd.1.1.2, hd.1.2, hd.2]
    · simp at h
  | _ :: _ :: _ :: _ :: _ :: _ => simp [year4Tok?] at h

theorem year2Tok_fields (t : List Char) (y : Nat) (h : year2Tok? t = some y) :
    t.length = 2 ∧ allDigits t = true := by
  match t with
  | [] => simp [year2Tok?] at h
  | [_] => simp [year2Tok?] at h
  | [a, b] =>
    simp only [year2Tok?] at h
    split at h
    · rename_i hd
      simp only [Bool.and_eq_true] at hd
      exact ⟨rfl, by simp [allDigits, hd.1, hd.2]⟩
    · simp at h
  | _ :: _ :: _ :: _ => simp [year2Tok?] at h

theorem specMonthField_of_tok (t : List Char) (m : Nat) (h : monthTok? t = some m) :
    specMonthField t = true := by
  obtain ⟨hl, hd, h1, h2⟩ := monthTok_fields _ _ h
  simp only [specMonthField, Bool.and_eq_true, Bool.or_eq_true, decide_eq_true_eq]
  exact ⟨⟨⟨hl, hd⟩, h1⟩, h2⟩

theorem specDayField_of_tok (t : List Char) (m : Nat) (h : dayTok? t = some m) :
    specDayField t = true := by
  obtain ⟨hl, hd, h1, h2⟩ := dayTok_fields _ _ h
  simp only [specDayField, Bool.and_eq_true, Bool.or_eq_true, decide_eq_true_eq]
  exact ⟨⟨⟨hl, hd⟩, h1⟩, h2⟩

theorem specYear4Field_of_tok (t : List Char) (y : Nat) (h : year4Tok? t = some y) :
    specYear4Field t = true := by
  obtain ⟨hl, hd⟩ := year4Tok_fields _ _ h
  simp only [specYear4Field, Bool.and_eq_true, decide_eq_true_eq]
  exact ⟨hl, hd⟩

theorem specYear2Field_of_tok (t : List Char) (y : Nat) (h : year2Tok? t = some y) :
    specYear2Field t = true := by
  obtain ⟨hl, hd⟩ := year2Tok_fields _ _ h
  simp only [specYear2Field, Bool.and_eq_true, decide_eq_true_eq]
  exact ⟨hl, hd⟩

theorem parseMDY4_grammar (s : String) (d : PyDate) (h : parseMDY4 s = some d) :
    specDateGrammar s = true := by
  unfold parseMDY4 at h
  split at h
  · rename_i a b c hs
    cases hm : monthTok? a with
    | none => rw [hm] at h; simp at h
    | some m =>
      cases hd : dayTok? b with
      | none => rw [hm, hd] at h; simp at h
      | some dd =>
        cases hy : year4Tok? c with
        | none => rw [hm, hd, hy] at h; simp at h
        | some y =>
          simp only [specDateGrammar, hs, Bool.or_eq_true, Bool.and_eq_true]
          left
          simp [specMonthField_of_tok a m hm, specDayField_of_tok b dd hd,
            specYear4Field_of_tok c y hy]
  · simp at h

theorem parseMDY2_grammar (s : String) (d : PyDate) (h : parseMDY2 s = some d) :
    specDateGrammar s = true := by
  unfold parseMDY2 at h
  split at h
  · rename_i a b c hs
    cases hm : monthTok? a with
    | none => rw [hm] at h; simp at h
    | some m =>
      cases hd : dayTok? b with
      | none => rw [hm, hd] at h; simp at h
      | some dd =>
        cases hy : year2Tok? c with
        | none => rw [hm, hd, hy] at h; simp at h
        | some y =>
          simp only [specDateGrammar, hs, Bool.or_eq_true, Bool.and_eq_true]
          left
          simp [specMonthField_of_tok a m hm, specDayField_of_tok b dd hd,
            specYear2Field_of_tok c y hy]
  · simp at h

theorem parseYMD_grammar (s : String) (d : PyDate) (h : parseYMD s = some d) :
    specDateGrammar s = true := by
  unfold parseYMD at h
  split at h
  · rename_i a b c hs
    cases hy : year4Tok? a with
    | none => rw [hy] at h; simp at h
    | some y =>
      cases hm : monthTok? b with
      | none => rw [hy, hm] at h; simp at h
      | some m =>
        cases hd : dayTok? c with
        | none => rw [hy, hm, hd] at h; simp at h
        | some dd =>
          simp only [specDateGrammar, hs, Bool.or_eq_true, Bool.and_eq_true]
          right
          left
          exact ⟨⟨specYear4Field_of_tok a y hy, specMonthField_of_tok b m hm⟩,
            specDayField_of_tok c dd hd⟩
  · simp at h

theorem parseDMY_grammar (s : String) (d : PyDate) (h : parseDMY s = some d) :
    specDateGrammar s = true := by
  unfold parseDMY at h
  split at h
  · rename_i a b c hs
    cases hd : dayTok? a with
    | none => rw [hd] at h; simp at h
    | some dd =>
      cases hm : monthTok? b with
      | none => rw [hd, hm] at h; simp at h
      | some m =>
        cases hy : year4Tok? c with
        | none => rw [hd, hm, hy] at h; simp at h
        | some y =>
          simp only [specDateGrammar, hs, Bool.or_eq_true, Bool.and_eq_true]
          right
          right
          exact ⟨⟨specDayField_of_tok a dd hd, specMonthField_of_tok b m hm⟩,
            specYear4Field_of_tok c y hy⟩
  · simp at h

theorem parse_date_grammar (s : String) (d : PyDate) (h : parse_date s = some d) :
    specDateGrammar s = true := by
  unfold parse_date at h
  cases h1 : parseMDY4 s with
  | some d1 => exact parseMDY4_grammar s d1 h1
  | none =>
    rw [h1] at h
    simp only [Option.orElse] at h
    cases h2 : parseMDY2 s with
    | some d2 => exact parseMDY2_grammar s d2 h2
    | none =>
      rw [h2] at h
      simp only [Option.orElse] at h
      cases h3 : parseYMD s with
      | some d3 => exact parseYMD_grammar s d3 h3
      | none =>
        rw [h3] at h
        simp only [Option.orElse] at h
        exact parseDMY_grammar s d h

/-- Claim C8: on every token matching none of the supported date
grammars, `_parse_date` fails (raises `ValueError`, modelled as `none`)
rather than returning any guessed date; the parser returns a date only
when some grammar fully matches the whole token. -/
theorem C8_no_guessed_dates (s : String) (h : specDateGrammar s = false) :
    parse_date s = none := by
  cases hp : parse_date s with
  | none => rfl
  | some d =>
    rw [parse_date_grammar s d hp] at h
    cases h

/-- Witness for C8 at concrete non-date tokens. -/
theorem C8_no_guessed_dates_witness :
    specDateGrammar "13/45/2020" = false ∧ parse_date "13/45/2020" = none
    ∧ specDateGrammar "hello" = false ∧ parse_date "hello" = none :=
  ⟨by decide, C8_no_guessed_dates "13/45/2020" (by decide),
   by decide, C8_no_guessed_dates "hello" (by decide)⟩

/-! ## Ordering of extracted timeline events (C5) -/

theorem daysInMonth_le (y m : Nat) : daysInMonth y m ≤ 31 := by
  unfold daysInMonth
  split <;> first | omega | (split <;> omega)

theorem mkDate_bounds (y m dd : Nat) (d : PyDate) (h : mkDate? y m dd = some d) :
    1 ≤ d.year ∧ 1 ≤ d.month ∧ d.month ≤ 12 ∧ 1 ≤ d.day ∧ d.day ≤ 31 := by
  unfold mkDate? at h
  split at h
  · rename_i hv
    cases h
    simp only [validDate, Bool.and_eq_true, decide_eq_true_eq] at hv
    have hle := daysInMonth_le y m
    have hdd := hv.2
    refine ⟨hv.1.1.1.1.1, hv.1.1.1.2, hv.1.1.2, hv.1.2, ?_⟩
    show dd ≤ 31
    omega
  · cases h

theorem parseMDY4_mk (s : String) (d : PyDate) (h : parseMDY4 s = some d) :
    ∃ y m dd, mkDate? y m dd = some d := by
  unfold parseMDY4 at h
  split at h
  · rename_i a b c hs
    cases hm : monthTok? a with
    | none => rw [hm] at h; simp at h
    | some m =>
      cases hd2 : dayTok? b with
      | none => rw [hm, hd2] at h; simp at h
      | some dd =>
        cases hy : year4Tok? c with
        | none => rw [hm, hd2, hy] at h; simp at h
        | some y =>
          rw [hm, hd2, hy] at h
          simp only [Option.bind_eq_bind, Option.some_bind] at h
          exact ⟨y, m, dd, h⟩
  · simp at h

theorem parseMDY2_mk (s : String) (d : PyDate) (h : parseMDY2 s = some d) :
    ∃ y m dd, mkDate? y m dd = some d := by
  unfold parseMDY2 at h
  split at h
  · rename_i a b c hs
    cases hm : monthTok? a with
    | none => rw [hm] at h; simp at h
    | some m =>
      cases hd2 : dayTok? b with
      | none => rw [hm, hd2] at h; simp at h
      | some dd =>
        cases hy : year2Tok? c with
        | none => rw [hm, hd2, hy] at h; simp at h
        | some y =>
          rw [hm, hd2, hy] at h
          simp only [Option.bind_eq_bind, Option.some_bind] at h
          exact ⟨y, m, dd, h⟩
  · simp at h

theorem parseYMD_mk (s : String) (d : PyDate) (h : parseYMD s = some d) :
    ∃ y m dd, mkDate? y m dd = some d := by
  unfold parseYMD at h
  split at h
  · rename_i a b c hs
    cases hy : year4Tok? a with
    | none => rw [hy] at h; simp at h
    | some y =>
      cases hm : monthTok? b with
      | none => rw [hy, hm] at h; simp at h
      | some m =>
        cases hd2 : dayTok? c with
        | none => rw [hy, hm, hd2] at h; simp at h
        | some dd =>
          rw [hy, hm, hd2] at h
          simp only [Option.bind_eq_bind, Option.some_bind] at h
          exact ⟨y, m, dd, h⟩
  · simp at h

theorem parseDMY_mk (s : String) (d : PyDate) (h : parseDMY s = some d) :
    ∃ y m dd, mkDate? y m dd = some d := by
  unfold parseDMY at h
  split at h
  · rename_i a b c hs
    cases hd2 : dayTok? a with
    | none => rw [hd2] at h; simp at h
    | some dd =>
      cases hm : monthTok? b with
      | none => rw [hd2, hm] at h; simp at h
      | some m =>
        cases hy : year4Tok? c with
        | none => rw [hd2, hm, hy] at h; simp at h
        | some y =>
          rw [hd2, hm, hy] at h
          simp only [Option.bind_eq_bind, Option.some_bind] at h
          exact ⟨y, m, dd, h⟩
  · simp at h

theorem parse_date_bounds (s : String) (d : PyDate) (h : parse_date s = some d) :
    1 ≤ d.year ∧ 1 ≤ d.month ∧ d.month ≤ 12 ∧ 1 ≤ d.day ∧ d.day ≤ 31 := by
  unfold parse_date at h
  cases h1 : parseMDY4 s with
  | some d1 =>
    rw [h1] at h
    simp only [Option.orElse] at h
    cases h
    obtain ⟨y, m, dd, hmk⟩ := parseMDY4_mk s d h1
    exact mkDate_bounds y m dd d hmk
  | none =>
    rw [h1] at h
    simp only [Option.orElse] at h
    cases h2 : parseMDY2 s with
    | some d2 =>
      rw [h2] at h
      simp only [Option.orElse] at h
      cases h
      obtain ⟨y, m, dd, hmk⟩ := parseMDY2_mk s d h2
      exact mkDate_bounds y m dd d hmk
    | none =>
      rw [h2] at h
      simp only [Option.orElse] at h
      cases h3 : parseYMD s with
      | some d3 =>
        rw [h3] at h
        simp only [Option.orElse] at h
        cases h
        obtain ⟨y, m, dd, hmk⟩ := parseYMD_mk s d h3
        exact mkDate_bounds y m dd d hmk
      | none =>
        rw [h3] at h
        simp only [Option.orElse] at h
        obtain ⟨y, m, dd, hmk⟩ := parseDMY_mk s d h
        exact mkDate_bounds y m dd d hmk

theorem extract_parsed_bounds (text : String) (e : Event)
    (he : e ∈ extract_timeline_events text) (d : PyDate)
    (hd : e.date = DateVal.parsed d) :
    1 ≤ d.year ∧ 1 ≤ d.month ∧ d.month ≤ 12 ∧ 1 ≤ d.day ∧ d.day ≤ 31 := by
  unfold extract_timeline_events at he
  have he2 := (sortByKeyAsc_perm _).mem_iff.mp he
  rw [List.mem_append] at he2
  have hev : ∃ p : String × List Char, e = mkEvent p.1 p.2 := by
    rcases he2 with hm | hm
    · obtain ⟨p, _, hp⟩ := List.mem_map.mp hm
      exact ⟨p, hp.symm⟩
    · obtain ⟨p, _, hp⟩ := List.mem_map.mp hm
      exact ⟨p, hp.symm⟩
  obtain ⟨p, hp⟩ := hev
  subst hp
  unfold mkEvent at hd
  simp only at hd
  cases hpd : parse_date p.1 with
  | some d2 =>
    rw [hpd] at hd
    cases hd
    exact parse_date_bounds p.1 d hpd
  | none => rw [hpd] at hd; cases hd

/-- Claim C5 (amended): the extracted event sequence is sorted ascending
by the sort key — the parsed date, with `datetime.min` substituted for
raw-token dates.  Raw-token events therefore precede every event with a
parsed date other than the minimum; but the sort is stable, so a parsed
event that precedes a raw-token event must carry exactly the minimal
date (year 1, January 1), as in the counterexample. -/
theorem C5_amended_sort_key_order (text : String) :
    (extract_timeline_events text).Pairwise (fun a b => eventKey a ≤ eventKey b)
    ∧ ∀ i j (hi : i < (extract_timeline_events text).length)
        (hj : j < (extract_timeline_events text).length), i < j →
        ∀ d, ((extract_timeline_events text).get ⟨i, hi⟩).date = DateVal.parsed d →
        ∀ s, ((extract_timeline_events text).get ⟨j, hj⟩).date = DateVal.raw s →
        d = pyDateMin := by
  have hsorted : (extract_timeline_events text).Pairwise (fun a b => eventKey a ≤ eventKey b) := by
    unfold extract_timeline_events
    exact sortByKeyAsc_sorted _
  refine ⟨hsorted, ?_⟩
  intro i j hi hj hij d hdi s hdj
  have hmem : (extract_timeline_events text).get ⟨i, hi⟩ ∈ extract_timeline_events text :=
    List.get_mem _ _ _
  have hb := extract_parsed_bounds text _ hmem d hdi
  have hrel := List.pairwise_iff_get.mp hsorted ⟨i, hi⟩ ⟨j, hj⟩ hij
  have hkeyj : eventKey ((extract_timeline_events text).get ⟨j, hj⟩) = dateKey pyDateMin := by
    unfold eventKey
    rw [hdj]
  have hkeyi : eventKey ((extract_timeline_events text).get ⟨i, hi⟩) = dateKey d := by
    unfold eventKey
    rw [hdi]
  rw [hkeyi, hkeyj] at hrel
  obtain ⟨yy, mm, dd2⟩ := d
  obtain ⟨h1, h2, h3, h4, h5⟩ := hb
  simp only [dateKey, pyDateMin] at hrel ⊢
  simp only [PyDate.mk.injEq]
  simp only [] at h1 h2 h3 h4 h5
  omega

/-- Witness for C5 (amended) at a text producing a minimal-date parsed
event followed by a raw-token event. -/
theorem C5_amended_sort_key_order_witness :
    (extract_timeline_events "1/1/0001 - a\n13/45/2020 - b").Pairwise
        (fun a b => eventKey a ≤ eventKey b)
    ∧ (⟨1, 1, 1⟩ : PyDate) = pyDateMin :=
  ⟨(C5_amended_sort_key_order "1/1/0001 - a\n13/45/2020 - b").1,
   (C5_amended_sort_key_order "1/1/0001 - a\n13/45/2020 - b").2 0 1
     (by decide) (by decide) (by decide) ⟨1, 1, 1⟩ (by decide) "13/45/2020" (by decide)⟩

/-- Counterexample to claim C5 as stated: in this text the first date
parses to `datetime.min` (year 1) and the second date is unparsable; the
stable sort keeps the parsed event first, so the raw-token event does
not sort before all events with parsed dates. -/
theorem C5_counterexample :
    (extract_timeline_events "1/1/0001 - a\n13/45/2020 - b").map Event.date
      = [DateVal.parsed ⟨1, 1, 1⟩, DateVal.raw "13/45/2020"]
    ∧ ¬ (∀ i j : Fin ([DateVal.parsed (⟨1, 1, 1⟩ : PyDate), DateVal.raw "13/45/2020"]).length,
          (fun v => match v with | DateVal.raw _ => true | _ => false)
              (([DateVal.parsed (⟨1, 1, 1⟩ : PyDate), DateVal.raw "13/45/2020"]).get i) = true →
          (fun v => match v with | DateVal.parsed _ => true | _ => false)
              (([DateVal.parsed (⟨1, 1, 1⟩ : PyDate), DateVal.raw "13/45/2020"]).get j) = true →
          (i : Nat) < (j : Nat)) := by
  constructor
  · decide
  · intro hall
    have h1 := hall ⟨1, by decide⟩ ⟨0, by decide⟩ (by decide) (by decide)
    have h2 : (1 : Nat) < 0 := h1
    omega

/-! ## Salience selection tie-breaking (C7) -/

theorem pair_sublist_of_indices {α : Type} :
    ∀ (l : List α) (i j : Nat) (hi : i < l.length) (hj : j < l.length), i < j →
      [l.get ⟨i, hi⟩, l.get ⟨j, hj⟩].Sublist l := by
  intro l
  induction l with
  | nil => intro i j hi _ _; simp at hi
  | cons x t ih =>
    intro i j hi hj hij
    cases i with
    | zero =>
      cases j with
      | zero => omega
      | succ j' =>
        simp only [List.get]
        exact (List.singleton_sublist.mpr (List.get_mem t _ _)).cons₂ x
    | succ i' =>
      cases j with
      | zero => omega
      | succ j' =>
        simp only [List.get]
        exact (ih i' j' (by simpa using hi) (by simpa using hj) (by omega)).cons x

theorem mem_prefix_of_pair_sublist {α : Type} {a b : α} :
    ∀ (P R : List α), [a, b].Sublist (P ++ R) → (P ++ R).Nodup → b ∈ P → a ∈ P := by
  intro P
  induction P with
  | nil => intro R _ _ hb; simp at hb
  | cons x P2 ih =>
    intro R h hnd hb
    cases h with
    | cons _ h2 =>
      rcases List.mem_cons.mp hb with rfl | hb2
      · exfalso
        have hbmem : b ∈ P2 ++ R := h2.subset (by simp)
        exact (List.nodup_cons.mp hnd).1 hbmem
      · exact List.mem_cons_of_mem x (ih R h2 (List.nodup_cons.mp hnd).2 hb2)
    | cons₂ _ h2 =>
      simp

theorem sortDesc_head_max (l : List (Nat × Event)) (z : Nat × Event)
    (rest : List (Nat × Event)) (hs : sortDescByScore l = z :: rest) :
    ∀ p ∈ l, p.1 ≤ z.1 := by
  intro p hp
  have hp2 : p ∈ z :: rest := by
    rw [← hs]
    exact (sortDescByScore_perm l).mem_iff.mpr hp
  rcases List.mem_cons.mp hp2 with rfl | hp3
  · exact le_refl _
  · have hsorted := sortDescByScore_sorted l
    rw [hs] at hsorted
    exact List.rel_of_pairwise_cons hsorted hp3

/-- Claim C7 (amended): score ties in the top-N selection are broken by
position, not recency: the stable descending sort keeps equal-scored
events in input order (ascending date for pipeline input), so whenever
the later of two equal-scored, positively-scored events is selected, the
earlier one is selected as well — the earlier event wins the tie. -/
theorem snippets_of_ne_nil (events : List Event) (limit : Nat) (hne : events ≠ []) :
    get_communication_snippets events limit =
      ((match ((sortDescByScore (events.map (fun e => (scoreEvent e, e)))).take limit).filter
          (fun p => 0 < p.1) with
        | [] => lastSlice limit events
        | _ :: _ =>
          (((sortDescByScore (events.map (fun e => (scoreEvent e, e)))).take limit).filter
              (fun p => 0 < p.1)).map (fun p => p.2)) : List Event).map
        (fun e => e.raw_text) := by
  obtain ⟨e0, tl, rfl⟩ := List.exists_cons_of_ne_nil hne
  rfl

theorem C7_amended_ties_keep_input_order (events : List Event) (limit i j : Nat)
    (hi : i < events.length) (hj : j < events.length) (hij : i < j)
    (hsc : scoreEvent (events.get ⟨i, hi⟩) = scoreEvent (events.get ⟨j, hj⟩))
    (hpos : 0 < scoreEvent (events.get ⟨j, hj⟩))
    (hnd : (events.map Event.raw_text).Nodup)
    (hmem : (events.get ⟨j, hj⟩).raw_text ∈ get_communication_snippets events limit) :
    (events.get ⟨i, hi⟩).raw_text ∈ get_communication_snippets events limit := by
  have hndev : events.Nodup := hnd.of_map
  have hinj : Function.Injective (fun e : Event => (scoreEvent e, e)) := by
    intro a b hab
    exact congrArg Prod.snd hab
  have hnds : (events.map (fun e => (scoreEvent e, e))).Nodup := hndev.map hinj
  have hmemi : events.get ⟨i, hi⟩ ∈ events := List.get_mem _ _ _
  have hmemj : events.get ⟨j, hj⟩ ∈ events := List.get_mem _ _ _
  have hne : events ≠ [] := List.ne_nil_of_length_pos (by omega)
  rw [snippets_of_ne_nil events limit hne] at hmem ⊢
  cases limit with
  | zero =>
    simp only [List.take_zero, List.filter_nil] at hmem ⊢
    simp only [lastSlice, if_pos rfl]
    exact List.mem_map.mpr ⟨events.get ⟨i, hi⟩, hmemi, rfl⟩
  | succ lim =>
    obtain ⟨z, rest, hs⟩ : ∃ z rest,
        sortDescByScore (events.map (fun e => (scoreEvent e, e))) = z :: rest := by
      cases hsd : sortDescByScore (events.map (fun e => (scoreEvent e, e))) with
      | nil =>
        exfalso
        have hlen := (sortDescByScore_perm (events.map (fun e => (scoreEvent e, e)))).length_eq
        rw [hsd] at hlen
        simp at hlen
        omega
      | cons a b => exact ⟨a, b, rfl⟩
    have hzmax := sortDesc_head_max _ z rest hs
    have hpj : (scoreEvent (events.get ⟨j, hj⟩), events.get ⟨j, hj⟩)
        ∈ events.map (fun e => (scoreEvent e, e)) :=
      List.mem_map.mpr ⟨_, hmemj, rfl⟩
    have hzpos : 0 < z.1 := lt_of_lt_of_le hpos (hzmax _ hpj)
    have htopne : ((sortDescByScore (events.map (fun e => (scoreEvent e, e)))).take
        (lim + 1)).filter (fun p => 0 < p.1) ≠ [] := by
      rw [hs]
      simp only [List.take_succ_cons, List.filter_cons]
      simp [hzpos]
    rcases hfe : (((sortDescByScore (events.map (fun e => (scoreEvent e, e)))).take
        (lim + 1)).filter (fun p => 0 < p.1)) with _ | ⟨q, qs⟩
    · exact absurd hfe htopne
    · rw [hfe] at hmem ⊢
      simp only [List.map_map, List.mem_map] at hmem
      obtain ⟨p, hptop, hpraw⟩ := hmem
      have hptake : p ∈ (sortDescByScore (events.map (fun e => (scoreEvent e, e)))).take
          (lim + 1) :=
        List.mem_of_mem_filter (by rw [hfe]; exact hptop)
      have hpscored : p ∈ events.map (fun e => (scoreEvent e, e)) :=
        (sortDescByScore_perm _).mem_iff.mp (List.take_subset _ _ hptake)
      obtain ⟨e2, he2, hpe⟩ := List.mem_map.mp hpscored
      have he2j : e2 = events.get ⟨j, hj⟩ := by
        apply List.inj_on_of_nodup_map hnd he2 hmemj
        have hp2 : p.2 = e2 := by rw [← hpe]
        rw [← hp2]
        exact hpraw
      subst he2j
      have hpj2 : p = (scoreEvent (events.get ⟨j, hj⟩), events.get ⟨j, hj⟩) := by
        rw [← hpe]
      have hsub0 : [events.get ⟨i, hi⟩, events.get ⟨j, hj⟩].Sublist events :=
        pair_sublist_of_indices events i j hi hj hij
      have hsub1 : [(scoreEvent (events.get ⟨i, hi⟩), events.get ⟨i, hi⟩),
          (scoreEvent (events.get ⟨j, hj⟩), events.get ⟨j, hj⟩)].Sublist
          (events.map (fun e => (scoreEvent e, e))) := by
        have hm := hsub0.map (fun e => (scoreEvent e, e))
        simpa using hm
      rw [hsc] at hsub1
      have hstab := sortDescByScore_filter (events.map (fun e => (scoreEvent e, e)))
        (scoreEvent (events.get ⟨j, hj⟩))
      have hsub2 : [(scoreEvent (events.get ⟨j, hj⟩), events.get ⟨i, hi⟩),
          (scoreEvent (events.get ⟨j, hj⟩), events.get ⟨j, hj⟩)].Sublist
          ((sortDescByScore (events.map (fun e => (scoreEvent e, e)))).filter
            (fun p => p.1 = scoreEvent (events.get ⟨j, hj⟩))) := by
        rw [hstab]
        have hf := hsub1.filter (fun p => p.1 = scoreEvent (events.get ⟨j, hj⟩))
        simpa using hf
      have hsplit : (sortDescByScore (events.map (fun e => (scoreEvent e, e)))).filter
          (fun p => p.1 = scoreEvent (events.get ⟨j, hj⟩))
          = ((sortDescByScore (events.map (fun e => (scoreEvent e, e)))).take (lim + 1)).filter
              (fun p => p.1 = scoreEvent (events.get ⟨j, hj⟩))
            ++ ((sortDescByScore (events.map (fun e => (scoreEvent e, e)))).drop (lim + 1)).filter
              (fun p => p.1 = scoreEvent (events.get ⟨j, hj⟩)) := by
        rw [← List.filter_append, List.take_append_drop]
      have hndfilter : ((sortDescByScore (events.map (fun e => (scoreEvent e, e)))).filter
          (fun p => p.1 = scoreEvent (events.get ⟨j, hj⟩))).Nodup :=
        ((sortDescByScore_perm _).nodup_iff.mpr hnds).filter _
      have hbP : (scoreEvent (events.get ⟨j, hj⟩), events.get ⟨j, hj⟩)
          ∈ ((sortDescByScore (events.map (fun e => (scoreEvent e, e)))).take (lim + 1)).filter
              (fun p => p.1 = scoreEvent (events.get ⟨j, hj⟩)) := by
        apply List.mem_filter.mpr
        refine ⟨?_, by simp⟩
        rw [hpj2] at hptake
        exact hptake
      have haP := mem_prefix_of_pair_sublist _ _ (by rw [← hsplit]; exact hsub2)
        (by rw [← hsplit]; exact hndfilter) hbP
      have haTake : (scoreEvent (events.get ⟨j, hj⟩), events.get ⟨i, hi⟩)
          ∈ (sortDescByScore (events.map (fun e => (scoreEvent e, e)))).take (lim + 1) :=
        List.mem_of_mem_filter haP
      have haTop : (scoreEvent (events.get ⟨j, hj⟩), events.get ⟨i, hi⟩)
          ∈ ((sortDescByScore (events.map (fun e => (scoreEvent e, e)))).take
              (lim + 1)).filter (fun p => 0 < p.1) := by
        apply List.mem_filter.mpr
        exact ⟨haTake, by simpa using hpos⟩
      rw [hfe] at haTop
      simp only [List.map_map, List.mem_map]
      exact ⟨_, haTop, rfl⟩

/-- Witness for C7 (amended) at two equal-scored events with ascending
dates and limit one: the earlier event is selected, hence the membership
transfer holds concretely. -/
theorem C7_amended_ties_keep_input_order_witness :
    (([⟨DateVal.parsed ⟨2020, 1, 1⟩, "angry a", "angry a"⟩,
       ⟨DateVal.parsed ⟨2021, 1, 1⟩, "angry b", "angry b"⟩] : List Event).get
        ⟨0, by decide⟩).raw_text
      ∈ get_communication_snippets
          [⟨DateVal.parsed ⟨2020, 1, 1⟩, "angry a", "angry a"⟩,
           ⟨DateVal.parsed ⟨2021, 1, 1⟩, "angry b", "angry b"⟩] 2 :=
  C7_amended_ties_keep_input_order
    [⟨DateVal.parsed ⟨2020, 1, 1⟩, "angry a", "angry a"⟩,
     ⟨DateVal.parsed ⟨2021, 1, 1⟩, "angry b", "angry b"⟩] 2 0 1
    (by decide) (by decide) (by decide) (by decide) (by decide) (by decide) (by decide)

/-- Counterexample to claim C7 as stated: two events with equal positive
keyword score, input ascending by date; truncation to the top 1 selects
the earlier-dated event, not the later-dated one as the claim requires. -/
theorem C7_counterexample :
    scoreEvent ⟨DateVal.parsed ⟨2020, 1, 1⟩, "angry a", "angry a"⟩
      = scoreEvent ⟨DateVal.parsed ⟨2021, 1, 1⟩, "angry b", "angry b"⟩
    ∧ 0 < scoreEvent ⟨DateVal.parsed ⟨2020, 1, 1⟩, "angry a", "angry a"⟩
    ∧ eventKey ⟨DateVal.parsed ⟨2020, 1, 1⟩, "angry a", "angry a"⟩
        < eventKey ⟨DateVal.parsed ⟨2021, 1, 1⟩, "angry b", "angry b"⟩
    ∧ get_communication_snippets
        [⟨DateVal.parsed ⟨2020, 1, 1⟩, "angry a", "angry a"⟩,
         ⟨DateVal.parsed ⟨2021, 1, 1⟩, "angry b", "angry b"⟩] 1
      = ["angry a"]
    ∧ ("angry a" = "angry b" → False) := by
  refine ⟨by decide, by decide, by decide, by decide, by decide⟩

/-! ## Oracle-reply field parsing (C9) -/

theorem matchField_requires_label (label : List Char) (cs : List Char) (cap : List Char)
    (h : matchField label cs = some cap) : ciPrefix (label ++ [':']) cs = true := by
  unfold matchField at h
  split at h
  · assumption
  · cases h

theorem searchField_none (label : List Char) :
    ∀ cs, containsCI (label ++ [':']) cs = false → searchField label cs = none := by
  intro cs
  induction cs with
  | nil => intro _; rfl
  | cons c t ih =>
    intro h
    unfold containsCI at h
    rw [Bool.or_eq_false_iff] at h
    unfold searchField
    cases hm : matchField label (c :: t) with
    | some cap =>
      exfalso
      have := matchField_requires_label label (c :: t) cap hm
      rw [h.1] at this
      cases this
    | none => exact ih h.2

/-- Claim C9 (amended): `_parse_analysis_response` never raises; a field
whose label (followed by a colon) does not occur case-insensitively in
the reply is set to the placeholder "Not specified" — and when no label
occurs at all, the parser still returns a fully populated record with
every field the placeholder.  (The capture of a present field stops at
the next newline-led run of letters and whitespace before a colon — any
such line, not only the eight field labels, because `re.IGNORECASE`
widens `[A-Z\s]+` — as the counterexample shows.) -/
theorem C9_amended_missing_label_placeholder :
    (∀ (label text : String),
      containsCI (label.toList ++ [':']) text.toList = false →
      extract_field label text = "Not specified")
    ∧ ∀ (reply : String) (c : CaseData),
        (expectedLabels.all (fun L => !containsCI (L.toList ++ [':']) reply.toList)) = true →
        parse_analysis_response reply c =
          { case_name := c.case_name, pdf_filename := c.pdf_filename,
            classification := "Not specified", notice_sent := "Not specified",
            firm_fault := "Not specified", firm_fault_explanation := "Not specified",
            current_status := "Not specified", recommendation := "Not specified",
            reasoning := "Not specified", key_evidence := "Not specified",
            full_analysis := reply } := by
  have hfield : ∀ (label text : String),
      containsCI (label.toList ++ [':']) text.toList = false →
      extract_field label text = "Not specified" := by
    intro label text h
    unfold extract_field
    rw [searchField_none label.toList text.toList h]
  refine ⟨hfield, ?_⟩
  intro reply c hall
  simp only [expectedLabels, List.all_cons, List.all_nil, Bool.and_eq_true, Bool.not_eq_true',
    Bool.and_true] at hall
  obtain ⟨h1, h2, h3, h4, h5, h6, h7, h8⟩ := hall
  unfold parse_analysis_response
  rw [hfield _ _ h1, hfield _ _ h2, hfield _ _ h3, hfield _ _ h4,
    hfield _ _ h5, hfield _ _ h6, hfield _ _ h7, hfield _ _ h8]

/-- Witness for C9 (amended) at a reply containing no field label. -/
theorem C9_amended_missing_label_placeholder_witness :
    parse_analysis_response "no labels in this reply" ⟨"X", "x.pdf", [], ""⟩ =
      { case_name := "X", pdf_filename := "x.pdf",
        classification := "Not specified", notice_sent := "Not specified",
        firm_fault := "Not specified", firm_fault_explanation := "Not specified",
        current_status := "Not specified", recommendation := "Not specified",
        reasoning := "Not specified", key_evidence := "Not specified",
        full_analysis := "no labels in this reply" } :=
  C9_amended_missing_label_placeholder.2 "no labels in this reply" ⟨"X", "x.pdf", [], ""⟩
    (by decide)

/-- Counterexample to claim C9 as stated: the REASONING capture stops at
the line "he said:" — a newline-led letters-and-whitespace run before a
colon — although that line is not one of the eight field labels, so the
field is not "the text captured up to the next field label or end of
text". -/
theorem C9_counterexample :
    extract_field "REASONING" "REASONING: said\nhe said: more" = "said"
    ∧ claimFieldCapture "REASONING" "REASONING: said\nhe said: more" = "said\nhe said: more"
    ∧ ("said" = "said\nhe said: more" → False) :=
  ⟨by decide, by decide, by decide⟩

/-! ## Timeline segmentation (C6) -/

theorem matchPat1_some_tok (cs : List Char) (r : String × List Char × List Char)
    (h : matchPat1 cs = some r) : lookDateMdy cs = true := by
  unfold matchPat1 at h
  split at h
  · cases h
  · rename_i m r1 h1
    split at h
    · cases h
    · rename_i d r2 h2
      dsimp only at h
      split at h
      · rename_i hyr
        rw [Bool.and_eq_true] at hyr
        simp only [lookDateMdy, h1, h2]
        simpa using hyr.1
      · cases h

theorem matchPat2_some_tok (cs : List Char) (r : String × List Char × List Char)
    (h : matchPat2 cs = some r) : isoTok cs = true := by
  unfold matchPat2 at h
  cases h1 : isoHead? cs with
  | none => rw [h1] at h; cases h
  | some p =>
    unfold isoTok
    rw [h1]
    rfl

theorem scanMatches_nil (m : List Char → Option (String × List Char × List Char)) :
    ∀ fuel, scanMatches m fuel [] = [] := by
  intro fuel
  cases fuel <;> rfl

theorem noDateTokens_to_noIso :
    ∀ cs, noDateTokens cs = true → noIsoTokens cs = true := by
  intro cs
  induction cs with
  | nil => intro _; rfl
  | cons c t ih =>
    intro h
    unfold noDateTokens at h
    simp only [Bool.and_eq_true] at h
    unfold noIsoTokens
    simp only [Bool.and_eq_true]
    exact ⟨h.1.2, ih h.2⟩

theorem scan1_empty : ∀ fuel cs, noDateTokens cs = true → scanMatches matchPat1 fuel cs = [] := by
  intro fuel
  induction fuel with
  | zero => intro cs _; rfl
  | succ f ih =>
    intro cs h
    cases cs with
    | nil => rfl
    | cons c t =>
      unfold noDateTokens at h
      simp only [Bool.and_eq_true] at h
      unfold scanMatches
      cases hm : matchPat1 (c :: t) with
      | some r =>
        exfalso
        have := matchPat1_some_tok _ _ hm
        rw [this] at h
        simp at h
      | none => exact ih t h.2

theorem scan2_empty_noiso :
    ∀ fuel cs, noIsoTokens cs = true → scanMatches matchPat2 fuel cs = [] := by
  intro fuel
  induction fuel with
  | zero => intro cs _; rfl
  | succ f ih =>
    intro cs h
    cases cs with
    | nil => rfl
    | cons c t =>
      unfold noIsoTokens at h
      simp only [Bool.and_eq_true] at h
      unfold scanMatches
      cases hm : matchPat2 (c :: t) with
      | some r =>
        exfalso
        have := matchPat2_some_tok _ _ hm
        rw [this] at h
        simp at h
      | none => exact ih t h.2

/-- Counterexample to claim C6 as stated: the segmentation patterns are
not anchored at line starts, so a text with zero date-leading lines still
produces an event from a date token in the middle of its only line. -/
theorem C6_counterexample :
    specDateLeadingLineCount "on 1/2/2020 - x" = 0
    ∧ (extract_timeline_events "on 1/2/2020 - x").length = 1
    ∧ ((1 : Nat) = 0 → False) :=
  ⟨by decide, by decide, by decide⟩

theorem takeWhile_append_all (p : Char → Bool) :
    ∀ (xs ys : List Char), xs.all p = true → (xs ++ ys).takeWhile p = xs ++ ys.takeWhile p := by
  intro xs
  induction xs with
  | nil => intro ys _; rfl
  | cons x t ih =>
    intro ys h
    simp only [List.all_cons, Bool.and_eq_true] at h
    simp [List.cons_append, List.takeWhile_cons, h.1, ih ys h.2]

theorem dropWhile_append_all (p : Char → Bool) :
    ∀ (xs ys : List Char), xs.all p = true → (xs ++ ys).dropWhile p = ys.dropWhile p := by
  intro xs
  induction xs with
  | nil => intro ys _; rfl
  | cons x t ih =>
    intro ys h
    simp only [List.all_cons, Bool.and_eq_true] at h
    simp only [List.cons_append, List.dropWhile_cons, h.1, if_true, ih ys h.2]

theorem takeWhile_cons_false (p : Char → Bool) (y : Char) (t : List Char)
    (h : p y = false) : (y :: t).takeWhile p = [] := by
  simp [List.takeWhile_cons, h]

theorem dropWhile_cons_false (p : Char → Bool) (y : Char) (t : List Char)
    (h : p y = false) : (y :: t).dropWhile p = y :: t := by
  simp [List.dropWhile_cons, h]

theorem drop_append_self {α : Type} (l₁ l₂ : List α) : (l₁ ++ l₂).drop l₁.length = l₂ := by
  induction l₁ with
  | nil => rfl
  | cons x t ih => simp [ih]

theorem pySpace_not_digit (c : Char) (h : pySpace c = true) : isDigit c = false := by
  simp only [pySpace, Bool.or_eq_true, decide_eq_true_eq] at h
  rcases h with ⟨⟨⟨⟨h | h⟩ | h⟩ | h⟩ | h⟩ | h <;> rw [h] <;> rfl

theorem lineWs_parts (c : Char) (h : lineWs c = true) :
    pySpace c = true ∧ c ≠ '\n' := by
  simp only [lineWs, Bool.and_eq_true, decide_eq_true_eq] at h
  exact ⟨h.1, h.2⟩

theorem all_lineWs_pySpace (ws : List Char) (h : ws.all lineWs = true) :
    ws.all pySpace = true := by
  rw [List.all_eq_true] at h ⊢
  intro c hc
  exact (lineWs_parts c (h c hc)).1

theorem digits12_parts (t : List Char) (h : digits12 t = true) :
    t ≠ [] ∧ t.all isDigit = true := by
  match t with
  | [] => cases h
  | [a] => exact ⟨by simp, by simpa [digits12] using h⟩
  | [a, b] =>
    rw [digits12, Bool.and_eq_true] at h
    exact ⟨by simp, by simp [h.1, h.2]⟩
  | _ :: _ :: _ :: _ => cases h

theorem wfLine_parts (l : TLine) (h : wfLine l = true) :
    digits12 l.d1 = true ∧ digits12 l.d2 = true ∧ l.yr.all isDigit = true
    ∧ 2 ≤ l.yr.length ∧ l.yr.length ≤ 4 ∧ l.ws1.all lineWs = true
    ∧ (l.sep = '-' ∨ l.sep = '|') ∧ l.ws2.all lineWs = true
    ∧ l.body ≠ [] ∧ (∀ c t2, l.body = c :: t2 → pySpace c = false)
    ∧ (∀ c ∈ l.body, c ≠ '\n') := by
  unfold wfLine at h
  simp only [Bool.and_eq_true, Bool.or_eq_true, decide_eq_true_eq] at h
  obtain ⟨⟨⟨⟨⟨⟨⟨⟨⟨h1, h2⟩, h3⟩, h4⟩, h5⟩, h6⟩, h7⟩, h8⟩, h9⟩, h10⟩ := h
  refine ⟨h1, h2, h3, h4, h5, h6, h7, h8, ?_, ?_, ?_⟩
  · intro hnil
    rw [hnil] at h9
    cases h9
  · intro c t2 hb
    rw [hb] at h9
    simpa using h9
  · intro c hc
    rw [List.all_eq_true] at h10
    simpa using h10 c hc

theorem parseD12_render (d1 rest : List Char) (h : digits12 d1 = true) :
    parseD12 (d1 ++ '/' :: rest) = some (d1, rest) := by
  match d1, h with
  | [a], h =>
    rw [digits12] at h
    simp [parseD12, h, show isDigit '/' = false from rfl]
  | [a, b], h =>
    rw [digits12, Bool.and_eq_true] at h
    simp [parseD12, h.1, h.2]

theorem sep_facts (sep : Char) (h : sep = '-' ∨ sep = '|') :
    isDigit sep = false ∧ pySpace sep = false
      ∧ (decide (sep = '-') || decide (sep = '|')) = true := by
  rcases h with rfl | rfl <;> exact ⟨rfl, rfl, by decide⟩

theorem takeWhile_digit_run (yr z : List Char) (hyr : yr.all isDigit = true)
    (hz : z.takeWhile isDigit = []) :
    (yr ++ z).takeWhile isDigit = yr := by
  rw [takeWhile_append_all isDigit yr z hyr, hz, List.append_nil]

theorem lookDateMdy_build (d1 d2 yr z : List Char)
    (h1 : digits12 d1 = true) (h2 : digits12 d2 = true)
    (h3 : yr.all isDigit = true) (h4 : 2 ≤ yr.length)
    (hz : z.takeWhile isDigit = []) :
    lookDateMdy (d1 ++ '/' :: (d2 ++ '/' :: (yr ++ z))) = true := by
  simp only [lookDateMdy, parseD12_render d1 _ h1, parseD12_render d2 _ h2]
  rw [takeWhile_digit_run yr z h3 hz]
  simpa using h4

theorem grabContentWith_append (stop : List Char → Bool)
    (hst : ∀ (x : Char) (xs : List Char), x ≠ '\n' → stop (x :: xs) = false) :
    ∀ (body tail : List Char), body ≠ [] → (∀ c ∈ body, c ≠ '\n') → stop tail = true →
      grabContentWith stop (body ++ tail) = (body, tail) := by
  intro body
  induction body with
  | nil => intro tail hne _ _; exact absurd rfl hne
  | cons c bt ih =>
    intro tail _ hnl hstop
    cases bt with
    | nil =>
      simp [grabContentWith, hstop]
    | cons c2 bt2 =>
      have hc2 : c2 ≠ '\n' := hnl c2 (by simp)
      have hstopfalse : stop ((c2 :: bt2) ++ tail) = false := by
        rw [List.cons_append]
        exact hst c2 _ hc2
      have ihr := ih tail (by simp) (fun x hx => hnl x (List.mem_cons_of_mem c hx)) hstop
      simp only [List.cons_append] at hstopfalse ihr ⊢
      rw [grabContentWith, hstopfalse]
      simp only [Bool.false_eq_true, if_false, ihr]

theorem stop1_cons_false (x : Char) (xs : List Char) (h : x ≠ '\n') :
    stop1 (x :: xs) = false := by
  simp [stop1, h]

theorem matchPat1_render (l : TLine) (tail : List Char) (hwf : wfLine l = true)
    (hstop : stop1 tail = true) :
    matchPat1 (renderLine l ++ tail) = some (lineDateStr l, l.body, tail) := by
  obtain ⟨hd1, hd2, hyr, hy2, hy4, hws1, hsep, hws2, hbne, hbhead, hbnl⟩ := wfLine_parts l hwf
  obtain ⟨d1, d2, yr, ws1, sep, ws2, body⟩ := l
  simp only at hd1 hd2 hyr hy2 hy4 hws1 hsep hws2 hbne hbhead hbnl
  obtain ⟨c0, bt, rfl⟩ : ∃ c0 bt, body = c0 :: bt := by
    cases body with
    | nil => exact absurd rfl hbne
    | cons a b => exact ⟨a, b, rfl⟩
  have hc0 : pySpace c0 = false := hbhead c0 bt rfl
  obtain ⟨hsepd, hseps, hsepcond⟩ := sep_facts sep hsep
  have e1 : renderLine ⟨d1, d2, yr, ws1, sep, ws2, c0 :: bt⟩ ++ tail
      = d1 ++ '/' :: (d2 ++ '/' :: (yr ++ (ws1 ++ sep :: (ws2 ++ (c0 :: (bt ++ tail)))))) := by
    simp [renderLine]
  have hzrun : (ws1 ++ sep :: (ws2 ++ (c0 :: (bt ++ tail)))).takeWhile isDigit = [] := by
    cases hws : ws1 with
    | nil =>
      simp only [List.nil_append]
      exact takeWhile_cons_false isDigit sep _ hsepd
    | cons w wt =>
      rw [hws] at hws1
      simp only [List.all_cons, Bool.and_eq_true] at hws1
      simp only [List.cons_append]
      exact takeWhile_cons_false isDigit w _ (pySpace_not_digit w (lineWs_parts w hws1.1).1)
  have s1 := parseD12_render d1 (d2 ++ '/' :: (yr ++ (ws1 ++ sep :: (ws2 ++ (c0 :: (bt ++ tail)))))) hd1
  have s2 := parseD12_render d2 (yr ++ (ws1 ++ sep :: (ws2 ++ (c0 :: (bt ++ tail))))) hd2
  have s3 : (yr ++ (ws1 ++ sep :: (ws2 ++ (c0 :: (bt ++ tail))))).takeWhile isDigit = yr :=
    takeWhile_digit_run yr _ hyr hzrun
  have s4 : (yr ++ (ws1 ++ sep :: (ws2 ++ (c0 :: (bt ++ tail))))).drop yr.length
      = ws1 ++ sep :: (ws2 ++ (c0 :: (bt ++ tail))) := drop_append_self yr _
  have s5 : (ws1 ++ sep :: (ws2 ++ (c0 :: (bt ++ tail)))).dropWhile pySpace
      = sep :: (ws2 ++ (c0 :: (bt ++ tail))) := by
    rw [dropWhile_append_all pySpace ws1 _ (all_lineWs_pySpace ws1 hws1)]
    exact dropWhile_cons_false pySpace sep _ hseps
  have s6 : (ws2 ++ (c0 :: (bt ++ tail))).takeWhile pySpace = ws2 := by
    rw [takeWhile_append_all pySpace ws2 _ (all_lineWs_pySpace ws2 hws2)]
    rw [takeWhile_cons_false pySpace c0 _ hc0, List.append_nil]
  have s7 : (ws2 ++ (c0 :: (bt ++ tail))).drop ws2.length = c0 :: (bt ++ tail) :=
    drop_append_self ws2 _
  have s9 : grabContentWith stop1 (c0 :: (bt ++ tail)) = (c0 :: bt, tail) := by
    have := grabContentWith_append stop1 stop1_cons_false (c0 :: bt) tail (by simp) hbnl hstop
    simpa using this
  rw [e1]
  simp only [matchPat1, s1, s2, s3, s4, s5, s6, s7, s9]
  simp [hy2, hy4, hsepcond, lineDateStr, dateStr1]

theorem parseD12_head_not_digit (c : Char) (t : List Char) (h : isDigit c = false) :
    parseD12 (c :: t) = none := by
  cases t with
  | nil => rfl
  | cons b t2 => simp [parseD12, h]

theorem matchPat1_head_not_digit (c : Char) (t : List Char) (h : isDigit c = false) :
    matchPat1 (c :: t) = none := by
  unfold matchPat1
  rw [parseD12_head_not_digit c t h]

theorem scanMatches_cons_some (m : List Char → Option (String × List Char × List Char))
    (fuel : Nat) (cs : List Char) (d : String) (c r : List Char)
    (hne : cs ≠ []) (hm : m cs = some (d, c, r)) :
    scanMatches m (fuel + 1) cs = (d, c) :: scanMatches m fuel r := by
  cases cs with
  | nil => exact absurd rfl hne
  | cons x t => simp [scanMatches, hm]

theorem scanMatches_cons_none (m : List Char → Option (String × List Char × List Char))
    (fuel : Nat) (c : Char) (t : List Char) (hm : m (c :: t) = none) :
    scanMatches m (fuel + 1) (c :: t) = scanMatches m fuel t := by
  simp [scanMatches, hm]

theorem renderLine_ne_nil (l : TLine) : renderLine l ≠ [] := by
  intro hc
  have hlen := congrArg List.length hc
  simp [renderLine] at hlen

theorem lookDateMdy_renderLine (l : TLine) (tail : List Char) (hwf : wfLine l = true) :
    lookDateMdy (renderLine l ++ tail) = true := by
  obtain ⟨hd1, hd2, hyr, hy2, hy4, hws1, hsep, hws2, hbne, hbhead, hbnl⟩ := wfLine_parts l hwf
  obtain ⟨d1, d2, yr, ws1, sep, ws2, body⟩ := l
  simp only at hd1 hd2 hyr hy2 hws1 hsep hbne hbhead
  obtain ⟨c0, bt, rfl⟩ : ∃ c0 bt, body = c0 :: bt := by
    cases body with
    | nil => exact absurd rfl hbne
    | cons a b => exact ⟨a, b, rfl⟩
  obtain ⟨hsepd, _, _⟩ := sep_facts sep hsep
  have e1 : renderLine ⟨d1, d2, yr, ws1, sep, ws2, c0 :: bt⟩ ++ tail
      = d1 ++ '/' :: (d2 ++ '/' :: (yr ++ (ws1 ++ sep :: (ws2 ++ (c0 :: (bt ++ tail)))))) := by
    simp [renderLine]
  have hzrun : (ws1 ++ sep :: (ws2 ++ (c0 :: (bt ++ tail)))).takeWhile isDigit = [] := by
    cases hws : ws1 with
    | nil =>
      simp only [List.nil_append]
      exact takeWhile_cons_false isDigit sep _ hsepd
    | cons w wt =>
      rw [hws] at hws1
      simp only [List.all_cons, Bool.and_eq_true] at hws1
      simp only [List.cons_append]
      exact takeWhile_cons_false isDigit w _ (pySpace_not_digit w (lineWs_parts w hws1.1).1)
  rw [e1]
  exact lookDateMdy_build d1 d2 yr _ hd1 hd2 hyr hy2 hzrun

theorem lookDateMdy_renderLines (l2 : TLine) (ls : List TLine) (h : wfLine l2 = true) :
    lookDateMdy (renderLines (l2 :: ls)) = true := by
  cases ls with
  | nil =>
    have := lookDateMdy_renderLine l2 [] h
    simpa [renderLines] using this
  | cons l3 ls2 =>
    rw [renderLines]
    exact lookDateMdy_renderLine l2 _ h

theorem scan1_render :
    ∀ (lines : List TLine) (fuel : Nat), (∀ l ∈ lines, wfLine l = true) →
      (renderLines lines).length < fuel →
      scanMatches matchPat1 fuel (renderLines lines)
        = lines.map (fun l => (lineDateStr l, l.body)) := by
  intro lines
  induction lines with
  | nil =>
    intro fuel _ hf
    cases fuel with
    | zero => simp [renderLines] at hf
    | succ f => rfl
  | cons l rest ih =>
    intro fuel hwf hf
    have hwl : wfLine l = true := hwf l (List.mem_cons_self l rest)
    have hrne : renderLine l ≠ [] := renderLine_ne_nil l
    have hrpos : 1 ≤ (renderLine l).length := List.length_pos.mpr hrne
    cases rest with
    | nil =>
      have hm : matchPat1 (renderLine l) = some (lineDateStr l, l.body, []) := by
        have h2 := matchPat1_render l [] hwl rfl
        simpa using h2
      cases fuel with
      | zero => simp [renderLines] at hf
      | succ f =>
        rw [renderLines]
        rw [scanMatches_cons_some matchPat1 f _ _ _ _ hrne hm, scanMatches_nil]
        rfl
    | cons l2 ls2 =>
      have hlook : lookDateMdy (renderLines (l2 :: ls2)) = true :=
        lookDateMdy_renderLines l2 ls2 (hwf l2 (by simp))
      have hstop : stop1 ('\n' :: renderLines (l2 :: ls2)) = true := by
        simp [stop1, hlook]
      have hm := matchPat1_render l ('\n' :: renderLines (l2 :: ls2)) hwl hstop
      rw [renderLines] at hf ⊢
      simp only [List.length_append, List.length_cons] at hf
      cases fuel with
      | zero => omega
      | succ f =>
        have hne2 : renderLine l ++ '\n' :: renderLines (l2 :: ls2) ≠ [] := by
          simp
        rw [scanMatches_cons_some matchPat1 f _ _ _ _ hne2 hm]
        cases f with
        | zero => omega
        | succ f2 =>
          have hmn : matchPat1 ('\n' :: renderLines (l2 :: ls2)) = none :=
            matchPat1_head_not_digit '\n' _ rfl
          rw [scanMatches_cons_none matchPat1 f2 _ _ hmn]
          rw [ih f2 (fun x hx => hwf x (List.mem_cons_of_mem l hx)) (by omega)]
          rfl

/-- Claim C6 (amended): a text containing no date token of either
grammar at any position yields an empty event sequence without crashing;
and a text of N newline-separated well-formed date-led lines — each a
date token, separator and nonempty single-line body — with no ISO date
token anywhere yields exactly N events.  (As the counterexample shows,
the patterns are not anchored at line starts, so the stated claim over
date-leading lines fails: mid-line date tokens also produce events.) -/
theorem C6_amended_segmentation :
    (∀ text : String, noDateTokens text.toList = true → extract_timeline_events text = [])
    ∧ ∀ lines : List TLine, (∀ l ∈ lines, wfLine l = true) →
        noIsoTokens (renderLines lines) = true →
        (extract_timeline_events (String.mk (renderLines lines))).length = lines.length := by
  constructor
  · intro text h
    simp only [extract_timeline_events, finditer1, finditer2]
    rw [scan1_empty _ _ h, scan2_empty_noiso _ _ (noDateTokens_to_noIso _ h)]
    rfl
  · intro lines hwf hiso
    have hto : (String.mk (renderLines lines)).toList = renderLines lines := rfl
    simp only [extract_timeline_events, finditer1, finditer2, hto]
    rw [scan1_render lines ((renderLines lines).length + 1) hwf (by omega)]
    rw [scan2_empty_noiso _ _ hiso]
    rw [sortByKeyAsc_length]
    simp

/-- Witness for C6 (amended): a token-free text yields no events; one
well-formed rendered line yields exactly one event. -/
theorem C6_amended_segmentation_witness :
    extract_timeline_events "hello world" = []
    ∧ (extract_timeline_events (String.mk (renderLines
        [⟨['1'], ['2'], ['2', '0', '2', '0'], [], '-', [' '], ['h', 'i']⟩]))).length = 1 :=
  ⟨C6_amended_segmentation.1 "hello world" (by decide),
   C6_amended_segmentation.2 [⟨['1'], ['2'], ['2', '0', '2', '0'], [], '-', [' '], ['h', 'i']⟩]
     (by decide) (by decide)⟩
